import Mathlib

/-!
Verification of the multilingual-markdown (mmg) core: configuration
extraction (`src/mmg/config.py`), the conversion entry points
(`src/mmg/api.py`), and the classification/health-check pipeline.

String operations from Python (`replace`, `split`, `strip`, `splitlines`)
are modelled at the character-list level so their algebra can be proved.
Components of the repository that are not shipped under `src/`
(`mmg/utils.py`, `mmg/classifier.py`, `mmg/health.py`, `mmg/exceptions.py`)
are modelled from the specification; each such definition carries a doc
comment starting with `Modelled from the spec:`.
-/

/-- Whitespace test used by the Python `strip` model. -/
def wsChar (c : Char) : Bool := c.isWhitespace

/-- Model of Python `str.strip` on a character list: drop whitespace from
both ends. -/
def trimChars (cs : List Char) : List Char :=
  ((cs.dropWhile wsChar).reverse.dropWhile wsChar).reverse

/-- Model of Python `str.split(sep)` for a one-character separator:
splitting the empty string gives `[[]]`, adjacent separators give empty
chunks, exactly as in Python. -/
def splitCharList (c : Char) : List Char → List (List Char)
  | [] => [[]]
  | x :: xs =>
    if x = c then [] :: splitCharList c xs
    else
      match splitCharList c xs with
      | [] => [[x]]
      | y :: ys => (x :: y) :: ys

/-- Join chunks with a single separator character (used to state
comma-separated declarations). -/
def joinWith (c : Char) : List (List Char) → List Char
  | [] => []
  | [x] => x
  | x :: xs => x ++ c :: joinWith c xs

/-- Model of Python `str.strip` on strings. -/
def pyStripS (s : String) : String := ⟨trimChars s.data⟩

/-- Model of Python `s.replace(" ", "")`: removes every space character
(interior spaces included; other whitespace such as tabs is kept). -/
def pyRemoveSpaces (s : String) : String := ⟨s.data.filter (fun c => c != ' ')⟩

/-- Model of Python `s.split(",")`. -/
def pySplitComma (s : String) : List String := (splitCharList ',' s.data).map (fun cs => ⟨cs⟩)

/-- `m.group(2).replace(" ", "").split(",")` from
`src/mmg/config.py` (`_try_update_lang_tags`), also the string branch of
`extract_config_from_yml`. -/
def parseCommaTags (payload : String) : List String := pySplitComma (pyRemoveSpaces payload)

/-- Model of Python `str.splitlines` for newline-separated text: split on
the newline character and drop the trailing empty chunk produced by a
trailing newline (Python: `"".splitlines() == []`, `"a\n".splitlines() == ["a"]`). -/
def pySplitlines (s : String) : List String :=
  let parts := (splitCharList '\n' s.data).map (fun cs => (⟨cs⟩ : String))
  if parts.getLast? = some "" then parts.dropLast else parts

/-- Modelled from the spec: the Marker Grammar comment wrapper (spec 4.1,
`mmg/utils.py` REGEX_PATTERN is not under `src/`). A line carries a
directive payload when, after trimming, it is an HTML block comment
`<!-- payload -->` or a line comment `# payload`; the payload is trimmed. -/
def stripWrapChars (cs : List Char) : Option (List Char) :=
  let t := trimChars cs
  if "<!--".toList.isPrefixOf t && "-->".toList.isSuffixOf t && 7 ≤ t.length then
    some (trimChars ((t.drop 4).take (t.length - 7)))
  else if "#".toList.isPrefixOf t then
    some (trimChars (t.drop 1))
  else none

/-- Modelled from the spec: payload form `[tag]` (language switch). -/
def payloadSwitch (p : List Char) : Option (List Char) :=
  if "[".toList.isPrefixOf p && "]".toList.isSuffixOf p && 2 ≤ p.length then
    some ((p.drop 1).take (p.length - 2))
  else none

/-- Modelled from the spec: payload form `key: value` — the key must lead
the payload and the remainder is the trimmed value. -/
def payloadAfterKey (key : List Char) (p : List Char) : Option (List Char) :=
  if key.isPrefixOf p then some (trimChars (p.drop key.length)) else none

/-- Modelled from the spec: the language-switch marker matcher
(`REGEX_PATTERN` of `mmg/utils.py`, not under `src/`). -/
def matchLangSwitch (line : String) : Option String :=
  ((stripWrapChars line.data).bind payloadSwitch).map (fun cs => (⟨cs⟩ : String))

/-- Modelled from the spec: the `lang_tags:` declaration matcher; returns
the raw comma-separated payload. -/
def matchLangTags (line : String) : Option String :=
  ((stripWrapChars line.data).bind (payloadAfterKey "lang_tags:".toList)).map
    (fun cs => (⟨cs⟩ : String))

/-- Modelled from the spec: the `no_suffix:` declaration matcher; the
declared tag must be nonempty. -/
def matchNoSuffix (line : String) : Option String :=
  ((stripWrapChars line.data).bind (payloadAfterKey "no_suffix:".toList)).bind
    (fun cs => if cs = [] then none else some (⟨cs⟩ : String))

/-- Modelled from the spec: the comment-line test used as a guard in
`extract_config_from_md`. -/
def isCommentLine (line : String) : Bool := (stripWrapChars line.data).isSome

/-- Modelled from the spec: a fenced-code delimiter line (triple backtick
after trimming), for `flag_code_block_lines` of `mmg/utils.py`. -/
def isFenceLine (line : String) : Bool := "```".toList.isPrefixOf (trimChars line.data)

/-- Modelled from the spec: code-block mask computation
(`flag_code_block_lines` of `mmg/utils.py`, not under `src/`); fence lines
and the lines between an opening and closing fence are flagged. -/
def flagLoop (inCode : Bool) : List String → List Bool
  | [] => []
  | l :: ls =>
    if isFenceLine l then true :: flagLoop (!inCode) ls
    else inCode :: flagLoop inCode ls

/-- Modelled from the spec: the code-block mask over a document. -/
def flag_code_block_lines (doc : List String) : List Bool := flagLoop false doc

/-- `RESERVED_KEYWORDS` of `src/mmg/config.py`. -/
def RESERVED_KEYWORDS : List String := ["common", "ignore", "<Unknown>"]

/-- The `Config` dataclass of `src/mmg/config.py`. -/
structure Config where
  lang_tags : List String := []
  no_suffix : Option String := none
deriving Repr, DecidableEq, Inhabited

/-- The Python exception universe, shallowly: `BadConfigError` from
`mmg/exceptions.py`, and a generic constructor for every other exception
class (never raised by the modelled code). -/
inductive PyError where
  | badConfigError (msg : String)
  | otherError (ename : String) (msg : String)
deriving Repr, DecidableEq

instance {ε α : Type} [DecidableEq ε] [DecidableEq α] : DecidableEq (Except ε α) := by
  intro a b
  cases a with
  | error e =>
    cases b with
    | error f => exact decidable_of_iff (e = f) (by simp)
    | ok y => exact isFalse (by simp)
  | ok x =>
    cases b with
    | error f => exact isFalse (by simp)
    | ok y => exact decidable_of_iff (x = y) (by simp)

/-- Python truthiness of a list (`if cfg.lang_tags:`). -/
def pyTruthyStrList (l : List String) : Bool := !l.isEmpty

/-- Python truthiness of an optional string (`if cfg.no_suffix:`):
`None` and the empty string are falsy. -/
def pyTruthyOptStr : Option String → Bool
  | none => false
  | some s => s != ""

/-- The duplicate-declaration message raised by
`_check_duplicate_config_value` in `src/mmg/config.py`. -/
def dupDeclMsg (cname : String) : String :=
  "The configuration \x27" ++ cname ++ "\x27 is already defined."

/-- The message after `extract_config_from_md` appends the 1-based line
number (`[Check line: {line_num + 1}]`). -/
def dupMsg (cname : String) (lineNum : Nat) : String :=
  dupDeclMsg cname ++ " [Check line: " ++ toString lineNum ++ "]"

/-- `_try_update_lang_tags` of `src/mmg/config.py`, with the line number
the caller would append already attached to the error. -/
def _try_update_lang_tags (line : String) (lineNum : Nat) (cfg : Config) :
    Except PyError Config :=
  match matchLangTags line with
  | none => .ok cfg
  | some payload =>
    if pyTruthyStrList cfg.lang_tags then
      .error (.badConfigError (dupMsg "lang_tags" lineNum))
    else .ok { cfg with lang_tags := parseCommaTags payload }

/-- `_try_update_no_suffix` of `src/mmg/config.py`, with the line number
attached to the error. -/
def _try_update_no_suffix (line : String) (lineNum : Nat) (cfg : Config) :
    Except PyError Config :=
  match matchNoSuffix line with
  | none => .ok cfg
  | some tag =>
    if pyTruthyOptStr cfg.no_suffix then
      .error (.badConfigError (dupMsg "no_suffix" lineNum))
    else .ok { cfg with no_suffix := some tag }

/-- The enumerated loop body of `extract_config_from_md`: lines paired
with their code-block flag, `n` is the 0-based line index. -/
def extractLoop : List (String × Bool) → Nat → Config → Except PyError Config
  | [], _, cfg => .ok cfg
  | (l, m) :: rest, n, cfg =>
    if m then extractLoop rest (n + 1) cfg
    else if isCommentLine l then
      match _try_update_lang_tags l (n + 1) cfg with
      | .error e => .error e
      | .ok cfg1 =>
        match _try_update_no_suffix l (n + 1) cfg1 with
        | .error e => .error e
        | .ok cfg2 => extractLoop rest (n + 1) cfg2
    else extractLoop rest (n + 1) cfg

/-- `extract_config_from_md` of `src/mmg/config.py`. -/
def extract_config_from_md (base_doc : List String) : Except PyError Config :=
  extractLoop (base_doc.zip (flag_code_block_lines base_doc)) 0 {}

example : matchLangSwitch "<!-- [en] -->" = some "en" := by decide
example : matchLangSwitch "# [en]" = some "en" := by decide
example : matchLangTags "<!-- lang_tags: en, es -->" = some "en, es" := by decide
example : parseCommaTags "en, es" = ["en", "es"] := by decide
example : extract_config_from_md ["<!-- lang_tags: en,es -->", "<!-- no_suffix: en -->"]
    = .ok ⟨["en", "es"], some "en"⟩ := by decide
example : extract_config_from_md ["<!-- lang_tags: a -->", "<!-- lang_tags: b -->"]
    = .error (.badConfigError (dupMsg "lang_tags" 2)) := by decide
example : extract_config_from_md ["```", "<!-- lang_tags: a -->", "```"] = .ok {} := by decide

/-- Modelled from the spec: the routing table of the Classification Engine
(spec 4.3; `mmg/classifier.py` is not under `src/`). Given the declared
tag set and the active tag, the list of outputs a content line is appended
to. -/
def routeOf (tags : List String) (active : String) : List String :=
  if active = "<Unknown>" then tags
  else if active = "common" then tags
  else if active = "ignore" then []
  else if active ∈ tags then [active]
  else []

/-- Modelled from the spec: one state-machine step — a language-switch
marker replaces the active tag, any other line leaves it unchanged. -/
def stepActive (a : String) (l : String) : String :=
  match matchLangSwitch l with
  | some t => t
  | none => a

/-- The active tag after consuming a list of lines, starting from `a`. -/
def activeAfter (a : String) : List String → String
  | [] => a
  | l :: ls => activeAfter (stepActive a l) ls

/-- Modelled from the spec: the per-tag projection of
`MarkdownClassifier.classify` — the sequence of lines routed to output `t`,
starting in state `a`. Marker lines are elided; a content line is emitted
iff `t` is among the outputs the active tag routes to. -/
def classifyAux (tags : List String) (a : String) (t : String) : List String → List String
  | [] => []
  | l :: ls =>
    match matchLangSwitch l with
    | some tag => classifyAux tags tag t ls
    | none =>
      if t ∈ routeOf tags a then l :: classifyAux tags a t ls
      else classifyAux tags a t ls

/-- Modelled from the spec: `MarkdownClassifier(lang_tags).classify(lines)`
rendered as the ordered per-tag mapping (Python keeps one buffer per
declared tag, filled by the same routing; the dict of buffers equals this
per-tag projection). -/
def classify (tags : List String) (lines : List String) : List (String × List String) :=
  tags.map (fun t => (t, classifyAux tags "<Unknown>" t lines))

/-- Alphanumeric tokens of a heading title, lower-cased (used for anchor
slugs). -/
def tokensAlnumAux : List Char → List Char → List (List Char)
  | [], acc => if acc.isEmpty then [] else [acc.reverse]
  | c :: cs, acc =>
    if c.isAlphanum then tokensAlnumAux cs (c.toLower :: acc)
    else if acc.isEmpty then tokensAlnumAux cs []
    else acc.reverse :: tokensAlnumAux cs []

/-- Modelled from the spec: anchor derivation (spec 4.5) — lower-cased,
runs of whitespace/punctuation collapsed to a single separator. -/
def slugify (title : String) : String :=
  ⟨joinWith '-' (tokensAlnumAux title.data [])⟩

/-- Number of leading `#` characters (ATX heading depth). -/
def headingLevel (l : String) : Nat := (l.data.takeWhile (fun c => c == '#')).length

/-- ATX heading lines of a classified output with level and title. -/
def headingEntries (doc : List String) : List (Nat × String) :=
  doc.filterMap (fun l =>
    let lvl := headingLevel l
    if 1 ≤ lvl ∧ lvl ≤ 6 then some (lvl, (⟨trimChars (l.data.drop lvl)⟩ : String))
    else none)

/-- Modelled from the spec: duplicate anchors are disambiguated by a
numeric suffix in order of appearance (spec 4.5). -/
def dedupAnchors : List String → List (String × Nat) → List String
  | [], _ => []
  | a :: rest, seen =>
    match seen.find? (fun p => p.1 == a) with
    | some p =>
      (a ++ "-" ++ toString p.2) ::
        dedupAnchors rest (seen.map (fun q => if q.1 == a then (q.1, q.2 + 1) else q))
    | none => a :: dedupAnchors rest ((a, 1) :: seen)

/-- Modelled from the spec: the rendered table-of-contents block of one
classified output (spec 4.5); empty when the output has no headings. -/
def renderToc (doc : List String) : List String :=
  let hs := headingEntries doc
  let anchors := dedupAnchors (hs.map (fun p => slugify p.2)) []
  (hs.zip anchors).map (fun p =>
    (⟨List.replicate ((p.1.1 - 1) * 2) ' '⟩ : String) ++ "- [" ++ p.1.2 ++ "](#" ++ p.2 ++ ")")

/-- Modelled from the spec: `insert_toc` on one output — insert the
rendered block immediately after the first heading, or at the top when no
heading leads the document; a document with no headings is unchanged
(spec 4.5: the pass is purely additive). -/
def insertTocLines (doc : List String) : List String :=
  match renderToc doc with
  | [] => doc
  | toc =>
    match doc.findIdx? (fun l => decide (1 ≤ headingLevel l)) with
    | some i => doc.take (i + 1) ++ toc ++ doc.drop (i + 1)
    | none => toc ++ doc

/-- Modelled from the spec: `insert_toc` over the classified mapping. -/
def insertTocDocs (docs : List (String × List String)) : List (String × List String) :=
  docs.map (fun p => (p.1, insertTocLines p.2))

/-- `HealthStatus` of `mmg/health.py` (spec 3). -/
inductive HealthStatus where
  | HEALTHY
  | WARNING
  | UNHEALTHY
deriving Repr, DecidableEq

/-- Python `Enum.name`. -/
def HealthStatus.name : HealthStatus → String
  | .HEALTHY => "HEALTHY"
  | .WARNING => "WARNING"
  | .UNHEALTHY => "UNHEALTHY"

/-- Unmasked language-switch marker occurrences of a document, with their
0-based line index (spec 4.4: the gate re-runs the marker grammar,
respecting code-block masking). -/
def markerOccurrences (doc : List String) : List (Nat × String) :=
  ((doc.zip (flag_code_block_lines doc)).enum.filterMap (fun p =>
    if p.2.2 then none else (matchLangSwitch p.2.1).map (fun t => (p.1, t))))

/-- Per-declared-tag marker occurrence count (`TagCount`, spec 3). -/
def tagCountOf (doc : List String) (t : String) : Nat :=
  (markerOccurrences doc).countP (fun p => p.2 == t)

/-- Declared tags with zero marker occurrences. -/
def missingTags (tags : List String) (doc : List String) : List String :=
  tags.filter (fun t => tagCountOf doc t == 0)

/-- Marker occurrences whose tag is not declared (reserved control tags
`common` and `ignore` are legitimate markers, not undeclared references). -/
def undeclaredOccs (tags : List String) (doc : List String) : List (Nat × String) :=
  (markerOccurrences doc).filter (fun p =>
    !(tags.contains p.2) && !(RESERVED_KEYWORDS.contains p.2))

/-- Modelled from the spec: the ordered diagnostic message list of one
health-check run (spec 4.4: every detected problem appended,
human-readable, with the offending line number when available). -/
def healthErrorMessages (tags : List String) (doc : List String) : List String :=
  (missingTags tags doc).map (fun t => "The tag " ++ t ++ " is not found.") ++
    (undeclaredOccs tags doc).map (fun p =>
      "The tag " ++ p.2 ++ " is not declared. [Check line: " ++ toString (p.1 + 1) ++ "]")

/-- Modelled from the spec: the verdict policy (spec 4.4) — `UNHEALTHY`
when a declared tag has zero occurrences or an undeclared tag is
referenced, `HEALTHY` otherwise. The spec leaves the intermediate
`WARNING` conditions under-specified; this model never produces it. -/
def healthStatusOf (tags : List String) (doc : List String) : HealthStatus :=
  if missingTags tags doc ≠ [] ∨ undeclaredOccs tags doc ≠ [] then .UNHEALTHY
  else .HEALTHY

/-- The message of the error raised at `src/mmg/api.py:276`. -/
def mkHealthErrMsg (st : HealthStatus) (msgs : List String) : String :=
  "Health check failed.\n - Status: " ++ st.name ++ "\n - Error:\n" ++ "\n".intercalate msgs

/-- `_health_check` of `src/mmg/api.py` over the extension-specific line
stream (logging parameters omitted: they only print). Note the raised
error is `BadConfigError` (api.py line 276). -/
def _health_check (lines : List String) (cfg : Config) (skip_health_check force_convert : Bool) :
    Except PyError Unit :=
  if skip_health_check then .ok ()
  else
    if force_convert = false ∧ healthStatusOf cfg.lang_tags lines ≠ .HEALTHY then
      .error (.badConfigError
        (mkHealthErrMsg (healthStatusOf cfg.lang_tags lines)
          (healthErrorMessages cfg.lang_tags lines)))
    else .ok ()

/-- `convert_base_doc` of `src/mmg/api.py`: resolve the config, run the
health gate, classify, insert the TOC. -/
def convert_base_doc (base_doc : List String) (cfg? : Option Config)
    (skip_health_check force_convert : Bool) : Except PyError (List (String × List String)) :=
  match (match cfg? with | some c => Except.ok c | none => extract_config_from_md base_doc) with
  | .error e => .error e
  | .ok cfg =>
    match _health_check base_doc cfg skip_health_check force_convert with
    | .error e => .error e
    | .ok _ => .ok (insertTocDocs (classify cfg.lang_tags base_doc))

/-- `convert` of `src/mmg/api.py`: splitlines, convert, re-join each
per-language document with newlines. -/
def convert (base_md : String) (cfg? : Option Config)
    (skip_health_check force_convert : Bool) : Except PyError (List (String × String)) :=
  match convert_base_doc (pySplitlines base_md) cfg? skip_health_check force_convert with
  | .error e => .error e
  | .ok docs => .ok (docs.map (fun p => (p.1, "\n".intercalate p.2)))

example : classify ["en", "es"] ["<!-- [en] -->", "Hello", "<!-- [es] -->", "Hola"]
    = [("en", ["Hello"]), ("es", ["Hola"])] := by decide
example : convert "<!-- [en] -->\nHello\n<!-- [es] -->\nHola" (some ⟨["en", "es"], none⟩)
    false false = .ok [("en", "Hello"), ("es", "Hola")] := by decide
example : convert_base_doc ["<!-- [en] -->", "Hello"] (some ⟨["en", "es"], none⟩) false false
    = .error (.badConfigError
        "Health check failed.\n - Status: UNHEALTHY\n - Error:\nThe tag es is not found.")
    := by decide

/-- A notebook cell's `"source"` field: either the usual list of line
strings or (duck-typed) a single multi-line string. -/
inductive CellSource where
  | lines (ls : List String)
  | plain (s : String)
deriving Repr, DecidableEq

/-- A notebook cell (`cell_type` and `source`; other fields are inert for
the modelled pipeline). -/
structure Cell where
  cell_type : String
  source : CellSource
deriving Repr, DecidableEq

/-- A notebook (`cells`; other top-level notebook fields are copied
verbatim and are inert for the modelled pipeline). -/
structure Notebook where
  cells : List Cell
deriving Repr, DecidableEq

/-- Python iteration over a cell's `"source"` value: a list yields its
elements, a string yields its characters as one-character strings. -/
def cellIter : CellSource → List String
  | .lines ls => ls
  | .plain s => s.data.map (fun c => (⟨[c]⟩ : String))

/-- The flattening in `extract_config_from_jupyter` of `src/mmg/config.py`:
sources of markdown cells, flattened by Python iteration. -/
def flattenMdCells (nb : Notebook) : List String :=
  ((nb.cells.filter (fun c => c.cell_type == "markdown")).map (fun c => cellIter c.source)).flatten

/-- `extract_config_from_jupyter` of `src/mmg/config.py`. -/
def extract_config_from_jupyter (base_jn : Notebook) : Except PyError Config :=
  extract_config_from_md (flattenMdCells base_jn)

/-- Modelled from the spec: `JupyterClassifier` (spec 4.3) — each markdown
cell's source is classified per cell; the cell is placed into a language's
notebook iff its classified source is non-empty; non-markdown cells are
preserved identically in every language's notebook. -/
def classifyCellsFor (tags : List String) (t : String) (cells : List Cell) : List Cell :=
  cells.filterMap (fun c =>
    if c.cell_type == "markdown" then
      let out := classifyAux tags "<Unknown>" t (cellIter c.source)
      if out.isEmpty then none else some { c with source := .lines out }
    else some c)

/-- `convert_base_jupyter` of `src/mmg/api.py`. The spec does not define a
cell-level TOC insertion point for notebooks (spec 4.5 is stated over line
documents), so the notebook TOC pass is not modelled. -/
def convert_base_jupyter (base_jn : Notebook) (cfg? : Option Config)
    (skip_health_check force_convert : Bool) : Except PyError (List (String × Notebook)) :=
  match (match cfg? with | some c => Except.ok c | none => extract_config_from_jupyter base_jn) with
  | .error e => .error e
  | .ok cfg =>
    match _health_check (flattenMdCells base_jn) cfg skip_health_check force_convert with
    | .error e => .error e
    | .ok _ =>
      .ok (cfg.lang_tags.map (fun t => (t, ⟨classifyCellsFor cfg.lang_tags t base_jn.cells⟩)))

/-- A YAML/JSON-like tree. Non-string scalars (numbers, booleans, null)
only ever pass through `copy.deepcopy`, so an exact float representation
is not needed; `int`, `bool` and `null` stand in for all of them. -/
inductive Yaml where
  | str (s : String)
  | int (n : Int)
  | bool (b : Bool)
  | null
  | list (xs : List Yaml)
  | dict (kvs : List (String × Yaml))
deriving Repr, Inhabited

mutual

def Yaml.beq : Yaml → Yaml → Bool
  | .str a, .str b => a == b
  | .int a, .int b => a == b
  | .bool a, .bool b => a == b
  | .null, .null => true
  | .list xs, .list ys => Yaml.beqL xs ys
  | .dict xs, .dict ys => Yaml.beqD xs ys
  | _, _ => false

def Yaml.beqL : List Yaml → List Yaml → Bool
  | [], [] => true
  | x :: xs, y :: ys => Yaml.beq x y && Yaml.beqL xs ys
  | _, _ => false

def Yaml.beqD : List (String × Yaml) → List (String × Yaml) → Bool
  | [], [] => true
  | (k, v) :: xs, (k2, v2) :: ys => k == k2 && Yaml.beq v v2 && Yaml.beqD xs ys
  | _, _ => false

end

instance : BEq Yaml := ⟨Yaml.beq⟩

mutual

theorem Yaml.beq_refl : (y : Yaml) → Yaml.beq y y = true
  | .str a => by simp [Yaml.beq]
  | .int a => by simp [Yaml.beq]
  | .bool a => by simp [Yaml.beq]
  | .null => by simp [Yaml.beq]
  | .list xs => by simp [Yaml.beq, Yaml.beqL_refl xs]
  | .dict xs => by simp [Yaml.beq, Yaml.beqD_refl xs]

theorem Yaml.beqL_refl : (xs : List Yaml) → Yaml.beqL xs xs = true
  | [] => by simp [Yaml.beqL]
  | x :: xs => by simp [Yaml.beqL, Yaml.beq_refl x, Yaml.beqL_refl xs]

theorem Yaml.beqD_refl : (xs : List (String × Yaml)) → Yaml.beqD xs xs = true
  | [] => by simp [Yaml.beqD]
  | (k, v) :: xs => by simp [Yaml.beqD, Yaml.beq_refl v, Yaml.beqD_refl xs]

end

mutual

theorem Yaml.eq_of_beq : {a b : Yaml} → Yaml.beq a b = true → a = b
  | .str x, .str y, h => by simpa [Yaml.beq] using h
  | .str x, .int y, h => by simp [Yaml.beq] at h
  | .str x, .bool y, h => by simp [Yaml.beq] at h
  | .str x, .null, h => by simp [Yaml.beq] at h
  | .str x, .list ys, h => by simp [Yaml.beq] at h
  | .str x, .dict ys, h => by simp [Yaml.beq] at h
  | .int x, .str y, h => by simp [Yaml.beq] at h
  | .int x, .int y, h => by simpa [Yaml.beq] using h
  | .int x, .bool y, h => by simp [Yaml.beq] at h
  | .int x, .null, h => by simp [Yaml.beq] at h
  | .int x, .list ys, h => by simp [Yaml.beq] at h
  | .int x, .dict ys, h => by simp [Yaml.beq] at h
  | .bool x, .str y, h => by simp [Yaml.beq] at h
  | .bool x, .int y, h => by simp [Yaml.beq] at h
  | .bool x, .bool y, h => by simpa [Yaml.beq] using h
  | .bool x, .null, h => by simp [Yaml.beq] at h
  | .bool x, .list ys, h => by simp [Yaml.beq] at h
  | .bool x, .dict ys, h => by simp [Yaml.beq] at h
  | .null, .str y, h => by simp [Yaml.beq] at h
  | .null, .int y, h => by simp [Yaml.beq] at h
  | .null, .bool y, h => by simp [Yaml.beq] at h
  | .null, .null, h => rfl
  | .null, .list ys, h => by simp [Yaml.beq] at h
  | .null, .dict ys, h => by simp [Yaml.beq] at h
  | .list xs, .str y, h => by simp [Yaml.beq] at h
  | .list xs, .int y, h => by simp [Yaml.beq] at h
  | .list xs, .bool y, h => by simp [Yaml.beq] at h
  | .list xs, .null, h => by simp [Yaml.beq] at h
  | .list xs, .list ys, h => by
    simp [Yaml.beq] at h
    exact congrArg Yaml.list (Yaml.eqL_of_beqL h)
  | .list xs, .dict ys, h => by simp [Yaml.beq] at h
  | .dict xs, .str y, h => by simp [Yaml.beq] at h
  | .dict xs, .int y, h => by simp [Yaml.beq] at h
  | .dict xs, .bool y, h => by simp [Yaml.beq] at h
  | .dict xs, .null, h => by simp [Yaml.beq] at h
  | .dict xs, .list ys, h => by simp [Yaml.beq] at h
  | .dict xs, .dict ys, h => by
    simp [Yaml.beq] at h
    exact congrArg Yaml.dict (Yaml.eqD_of_beqD h)

theorem Yaml.eqL_of_beqL : {a b : List Yaml} → Yaml.beqL a b = true → a = b
  | [], [], _ => rfl
  | [], _ :: _, h => by simp [Yaml.beqL] at h
  | _ :: _, [], h => by simp [Yaml.beqL] at h
  | x :: xs, y :: ys, h => by
    simp [Yaml.beqL] at h
    rw [Yaml.eq_of_beq h.1, Yaml.eqL_of_beqL h.2]

theorem Yaml.eqD_of_beqD : {a b : List (String × Yaml)} → Yaml.beqD a b = true → a = b
  | [], [], _ => rfl
  | [], _ :: _, h => by simp [Yaml.beqD] at h
  | _ :: _, [], h => by simp [Yaml.beqD] at h
  | (k, v) :: xs, (k2, v2) :: ys, h => by
    simp [Yaml.beqD] at h
    rw [h.1.1, Yaml.eq_of_beq h.1.2, Yaml.eqD_of_beqD h.2]

end

instance : DecidableEq Yaml := fun a b =>
  decidable_of_iff (Yaml.beq a b = true) ⟨Yaml.eq_of_beq, fun h => h ▸ Yaml.beq_refl a⟩

mutual

/-- Python `repr` of a YAML value (reached only for container or exotic
values inside a `lang_tags` list; quote-escaping inside reprs is not
modelled as no declaration form produces it). -/
def pyRepr : Yaml → String
  | .str s => "\x27" ++ s ++ "\x27"
  | .int n => toString n
  | .bool b => if b then "True" else "False"
  | .null => "None"
  | .list xs => "[" ++ ", ".intercalate (pyReprL xs) ++ "]"
  | .dict kvs => "\x7b" ++ ", ".intercalate (pyReprD kvs) ++ "\x7d"

def pyReprL : List Yaml → List String
  | [] => []
  | y :: ys => pyRepr y :: pyReprL ys

def pyReprD : List (String × Yaml) → List String
  | [] => []
  | (k, v) :: rest => ("\x27" ++ k ++ "\x27: " ++ pyRepr v) :: pyReprD rest

end

/-- Python `str` of a YAML value. -/
def pyStr : Yaml → String
  | .str s => s
  | y => pyRepr y

/-- Python `dict.get`-style lookup on a YAML mapping. -/
def yLookup (kvs : List (String × Yaml)) (k : String) : Option Yaml :=
  (kvs.find? (fun p => p.1 == k)).map (fun p => p.2)

/-- Python `key in dict`. -/
def yHasKey (kvs : List (String × Yaml)) (k : String) : Bool := (yLookup kvs k).isSome

/-- Python truthiness of a YAML value. -/
def yTruthy : Yaml → Bool
  | .str s => s != ""
  | .int n => n != 0
  | .bool b => b
  | .null => false
  | .list xs => !xs.isEmpty
  | .dict kvs => !kvs.isEmpty

/-- The dict test of `isinstance(mmg_config, dict)`. -/
def isYamlDict : Yaml → Bool
  | .dict _ => true
  | _ => false

/-- The `lang_tags` value assignment of `extract_config_from_yml`
(`src/mmg/config.py` lines 107-112): a string is space-stripped and
comma-split, a list is element-wise `str(tag).strip()`, and any other
value is kept as-is (Python assigns it to `cfg.lang_tags` unchanged). -/
def ymlLangTagsValue : Yaml → Yaml
  | .str s => .list ((parseCommaTags s).map Yaml.str)
  | .list xs => .list (xs.map (fun t => Yaml.str (pyStripS (pyStr t))))
  | other => other

/-- The config built by `extract_config_from_yml`: Python's `Config` is
dynamically typed and its `lang_tags` field holds whatever the `mmg`
mapping supplied, so the field is a YAML value here (a list of strings for
every well-formed declaration). -/
structure ConfigV where
  lang_tags : Yaml := .list []
  no_suffix : Option String := none
deriving Repr, DecidableEq, Inhabited

/-- `extract_config_from_yml` of `src/mmg/config.py`. The two duplicate
branches guard a freshly constructed `cfg`, mirroring the source. -/
def extract_config_from_yml (base_yml : List (String × Yaml)) : Except PyError ConfigV :=
  let cfg : ConfigV := {}
  match (yLookup base_yml "mmg").getD (Yaml.dict []) with
  | .dict mkvs =>
    match (if yHasKey mkvs "lang_tags" then
            if yTruthy cfg.lang_tags then
              Except.error (PyError.badConfigError (dupDeclMsg "lang_tags"))
            else
              Except.ok { cfg with
                lang_tags := ymlLangTagsValue ((yLookup mkvs "lang_tags").getD (Yaml.list [])) }
          else Except.ok cfg : Except PyError ConfigV) with
    | .error e => .error e
    | .ok cfg1 =>
      if yHasKey mkvs "no_suffix" then
        if pyTruthyOptStr cfg1.no_suffix then
          .error (PyError.badConfigError (dupDeclMsg "no_suffix"))
        else
          .ok { cfg1 with
            no_suffix := some (pyStripS (pyStr ((yLookup mkvs "no_suffix").getD Yaml.null))) }
      else .ok cfg1
  | _ => .ok cfg

mutual

/-- The per-language projection of `process_obj` in `convert_base_yml`
(`src/mmg/api.py` lines 212-247): Python builds all languages at once with
the same structural recursion; for one language the recursion is this
function. A dict maps values (the `mmg` key deep-copied unchanged), a
list maps elements, a string is split into lines, classified for `lang`,
and re-joined; every other scalar is deep-copied as-is. -/
def classifyYamlLang (tags : List String) (lang : String) : Yaml → Yaml
  | .dict kvs => .dict (classifyYamlKvs tags lang kvs)
  | .list xs => .list (classifyYamlList tags lang xs)
  | .str s => .str ("\n".intercalate (classifyAux tags "<Unknown>" lang (pySplitlines s)))
  | y => y

def classifyYamlKvs (tags : List String) (lang : String) :
    List (String × Yaml) → List (String × Yaml)
  | [] => []
  | (k, v) :: rest =>
    (k, if k == "mmg" then v else classifyYamlLang tags lang v) :: classifyYamlKvs tags lang rest

def classifyYamlList (tags : List String) (lang : String) : List Yaml → List Yaml
  | [] => []
  | y :: ys => classifyYamlLang tags lang y :: classifyYamlList tags lang ys

end

/-- `process_obj` of `convert_base_yml`, applied to the whole tree: the
ordered per-language mapping. -/
def process_obj (tags : List String) (obj : Yaml) : List (String × Yaml) :=
  tags.map (fun lang => (lang, classifyYamlLang tags lang obj))

mutual

/-- Modelled from the spec: the line stream the yml health check runs the
marker grammar over (spec 4.4 re-runs the grammar "over the document"):
the lines of every string leaf, in tree order. -/
def ymlLines : Yaml → List String
  | .str s => pySplitlines s
  | .list xs => ymlLinesL xs
  | .dict kvs => ymlLinesD kvs
  | _ => []

def ymlLinesL : List Yaml → List String
  | [] => []
  | y :: ys => ymlLines y ++ ymlLinesL ys

def ymlLinesD : List (String × Yaml) → List String
  | [] => []
  | (_, v) :: rest => ymlLines v ++ ymlLinesD rest

end

/-- Adapter from the dynamically-typed `ConfigV` to the `Config` consumed
by `process_obj`: a declaration that did not produce a list of strings
would make Python fail with a `TypeError` when `process_obj` iterates
`cfg.lang_tags`; that failure is modelled here at config resolution. -/
def configOfV (cv : ConfigV) : Except PyError Config :=
  match cv.lang_tags with
  | .list xs =>
    match xs.mapM (fun y => match y with | .str s => some s | _ => none) with
    | some ts => .ok ⟨ts, cv.no_suffix⟩
    | none => .error (.otherError "TypeError" "lang_tags entries are not strings")
  | _ => .error (.otherError "TypeError" "lang_tags is not iterable as tags")

/-- `convert_base_yml` of `src/mmg/api.py` (conversion has no TOC pass:
api.py lines 252-253 return the converted dicts directly). -/
def convert_base_yml (base_yml : List (String × Yaml)) (cfg? : Option Config)
    (skip_health_check force_convert : Bool) : Except PyError (List (String × Yaml)) :=
  match (match cfg? with
         | some c => Except.ok c
         | none =>
           match extract_config_from_yml base_yml with
           | .error e => .error e
           | .ok cv => configOfV cv) with
  | .error e => .error e
  | .ok cfg =>
    match _health_check (ymlLines (.dict base_yml)) cfg skip_health_check force_convert with
    | .error e => .error e
    | .ok _ => .ok (process_obj cfg.lang_tags (.dict base_yml))

example : extract_config_from_yml
    [("mmg", .dict [("lang_tags", .str "en, es"), ("no_suffix", .str "en")]), ("title", .str "T")]
    = .ok ⟨.list [.str "en", .str "es"], some "en"⟩ := by decide
example : extract_config_from_yml
    [("mmg", .dict [("lang_tags", .list [.str "en-US", .str "fr-FR"])])]
    = .ok ⟨.list [.str "en-US", .str "fr-FR"], none⟩ := by decide
example : extract_config_from_yml [("title", .str "Test")] = .ok ⟨.list [], none⟩ := by decide
example : convert_base_yml
    [("mmg", .dict [("lang_tags", .str "en,es")]),
     ("message", .str "<!-- [en] -->\nHello\n<!-- [es] -->\nHola")] none false false
    = .ok [("en", .dict [("mmg", .dict [("lang_tags", .str "en,es")]), ("message", .str "Hello")]),
           ("es", .dict [("mmg", .dict [("lang_tags", .str "en,es")]), ("message", .str "Hola")])]
    := by decide

theorem classifyAux_append (tags : List String) (t : String) :
    ∀ (xs ys : List String) (a : String),
      classifyAux tags a t (xs ++ ys) =
        classifyAux tags a t xs ++ classifyAux tags (activeAfter a xs) t ys
  | [], ys, a => by simp [classifyAux, activeAfter]
  | l :: ls, ys, a => by
    simp only [List.cons_append, classifyAux, activeAfter]
    cases h : matchLangSwitch l with
    | some tag =>
      simp only [stepActive, h]
      exact classifyAux_append tags t ls ys tag
    | none =>
      simp only [stepActive, h]
      by_cases hm : t ∈ routeOf tags a
      · simp [hm, classifyAux_append tags t ls ys a]
      · simp [hm, classifyAux_append tags t ls ys a]

theorem lookup_map_pair {β : Type} (f : String → β) :
    ∀ (l : List String) (t : String), t ∈ l →
      List.lookup t (l.map (fun x => (x, f x))) = some (f t)
  | [], t, ht => by cases ht
  | t0 :: rest, t, ht => by
    by_cases h : t = t0
    · subst h
      simp [List.lookup]
    · have hb : (t == t0) = false := by simp [h]
      have h1 : t ∈ rest := by
        rcases List.mem_cons.mp ht with h2 | h2
        · exact absurd h2 h
        · exact h2
      simpa [List.lookup, hb] using lookup_map_pair f rest t h1

theorem lookup_classify (tags : List String) (lines : List String) (t : String)
    (ht : t ∈ tags) :
    List.lookup t (classify tags lines) = some (classifyAux tags "<Unknown>" t lines) :=
  lookup_map_pair (fun x => classifyAux tags "<Unknown>" x lines) tags t ht

/-- C1. Classification round-trip completeness (spec 8, spec 4.3;
`convert_base_doc` classification step, `src/mmg/api.py` lines 91-99).
For any declared tag set, any document decomposed as `pre ++ l :: post`
with `l` a content (non-marker) line, and any declared tag `t`: the
output for `t` is the prefix classification, then the occurrence of `l`
exactly when `t` is among the outputs the active tag routes to, then the
suffix classification — so the line appears with order preserved. The
remaining conjuncts pin the routing table: an active declared
(non-reserved) tag routes only to itself, `common` routes to every
declared tag, and `ignore` routes to none. -/
theorem claim_C1 (tags pre post : List String) (l t : String)
    (ht : t ∈ tags) (hl : matchLangSwitch l = none) :
    (List.lookup t (classify tags (pre ++ l :: post)) = some
      (classifyAux tags "<Unknown>" t pre
        ++ (if t ∈ routeOf tags (activeAfter "<Unknown>" pre) then [l] else [])
        ++ classifyAux tags (activeAfter "<Unknown>" pre) t post))
    ∧ (∀ T ∈ tags, T ∉ RESERVED_KEYWORDS → routeOf tags T = [T])
    ∧ routeOf tags "common" = tags
    ∧ routeOf tags "ignore" = [] := by
  refine ⟨?_, ?_, ?_, ?_⟩
  · rw [lookup_classify tags (pre ++ l :: post) t ht,
      classifyAux_append tags t pre (l :: post) "<Unknown>"]
    simp only [classifyAux, hl]
    by_cases hm : t ∈ routeOf tags (activeAfter "<Unknown>" pre)
    · simp [hm]
    · simp [hm]
  · intro T hT hres
    simp only [RESERVED_KEYWORDS, List.mem_cons, List.not_mem_nil, or_false, not_or] at hres
    obtain ⟨h1, h2, h3⟩ := hres
    have hu : T ≠ "<Unknown>" := h3
    simp [routeOf, hu, h1, h2, hT]
  · have h1 : ("common" : String) ≠ "<Unknown>" := by decide
    simp [routeOf, h1]
  · have h1 : ("ignore" : String) ≠ "<Unknown>" := by decide
    have h2 : ("ignore" : String) ≠ "common" := by decide
    simp [routeOf, h1, h2]

/-- Witness for C1 at the spec's concrete scenario. -/
theorem claim_C1_witness :
    (("en" : String) ∈ ["en", "es"]) ∧ matchLangSwitch "Hello" = none ∧
      List.lookup "en" (classify ["en", "es"] ["<!-- [en] -->", "Hello", "<!-- [es] -->", "Hola"])
        = some ["Hello"] :=
  ⟨by decide, by decide,
    ((claim_C1 ["en", "es"] ["<!-- [en] -->"] ["<!-- [es] -->", "Hola"] "Hello" "en"
      (by decide) (by decide)).1).trans (by decide)⟩

theorem health_gate_err (lines : List String) (cfg : Config)
    (h : healthStatusOf cfg.lang_tags lines ≠ .HEALTHY) :
    _health_check lines cfg false false =
      .error (.badConfigError
        (mkHealthErrMsg (healthStatusOf cfg.lang_tags lines)
          (healthErrorMessages cfg.lang_tags lines))) := by
  simp [_health_check, h]

/-- C2, counterexample to the claim as stated: the claim asserts the
health-check failure is raised as an error of a type distinct from
`BadConfigError`; at this concrete input (declared tags `en, es`, content
only under `[en]`, so the verdict is `UNHEALTHY`) the conversion raises
`BadConfigError` itself — `src/mmg/api.py` line 276. -/
theorem claim_C2_counterexample :
    convert_base_doc ["<!-- [en] -->", "Hello"] (some ⟨["en", "es"], none⟩) false false
      = .error (PyError.badConfigError
          "Health check failed.\n - Status: UNHEALTHY\n - Error:\nThe tag es is not found.") ∧
    healthStatusOf ["en", "es"] ["<!-- [en] -->", "Hello"] = .UNHEALTHY := by
  constructor
  · decide
  · decide

/-- C2, amended: for every conversion entry point (`convert`,
`convert_base_doc`, `convert_base_jupyter`, `convert_base_yml`), if
`skip_health_check` and `force_convert` are false and the verdict over the
entry point's line stream is not `HEALTHY`, the call returns an error
before producing any classification output; the error is `BadConfigError`
— the same exception type as configuration errors, not a distinct one —
and its message carries the verdict status name and the newline-joined
full ordered diagnostic message list. -/
theorem claim_C2_amended :
    (∀ (s : String) (cfg : Config),
      healthStatusOf cfg.lang_tags (pySplitlines s) ≠ .HEALTHY →
      convert s (some cfg) false false =
        .error (.badConfigError
          (mkHealthErrMsg (healthStatusOf cfg.lang_tags (pySplitlines s))
            (healthErrorMessages cfg.lang_tags (pySplitlines s)))))
    ∧ (∀ (doc : List String) (cfg : Config),
      healthStatusOf cfg.lang_tags doc ≠ .HEALTHY →
      convert_base_doc doc (some cfg) false false =
        .error (.badConfigError
          (mkHealthErrMsg (healthStatusOf cfg.lang_tags doc)
            (healthErrorMessages cfg.lang_tags doc))))
    ∧ (∀ (nb : Notebook) (cfg : Config),
      healthStatusOf cfg.lang_tags (flattenMdCells nb) ≠ .HEALTHY →
      convert_base_jupyter nb (some cfg) false false =
        .error (.badConfigError
          (mkHealthErrMsg (healthStatusOf cfg.lang_tags (flattenMdCells nb))
            (healthErrorMessages cfg.lang_tags (flattenMdCells nb)))))
    ∧ (∀ (base : List (String × Yaml)) (cfg : Config),
      healthStatusOf cfg.lang_tags (ymlLines (.dict base)) ≠ .HEALTHY →
      convert_base_yml base (some cfg) false false =
        .error (.badConfigError
          (mkHealthErrMsg (healthStatusOf cfg.lang_tags (ymlLines (.dict base)))
            (healthErrorMessages cfg.lang_tags (ymlLines (.dict base)))))) := by
  refine ⟨?_, ?_, ?_, ?_⟩
  · intro s cfg h
    simp [convert, convert_base_doc, health_gate_err _ _ h]
  · intro doc cfg h
    simp [convert_base_doc, health_gate_err _ _ h]
  · intro nb cfg h
    simp [convert_base_jupyter, health_gate_err _ _ h]
  · intro base cfg h
    simp [convert_base_yml, health_gate_err _ _ h]

/-- Witness for C2 (amended) at a concrete blocked conversion. -/
theorem claim_C2_amended_witness :
    healthStatusOf ["en", "es"] (pySplitlines "<!-- [en] -->\nHello") ≠ .HEALTHY ∧
    convert "<!-- [en] -->\nHello" (some ⟨["en", "es"], none⟩) false false =
      .error (.badConfigError
        (mkHealthErrMsg (healthStatusOf ["en", "es"] (pySplitlines "<!-- [en] -->\nHello"))
          (healthErrorMessages ["en", "es"] (pySplitlines "<!-- [en] -->\nHello")))) :=
  ⟨by decide, claim_C2_amended.1 "<!-- [en] -->\nHello" ⟨["en", "es"], none⟩ (by decide)⟩

theorem splitCharList_ne_nil (c : Char) : ∀ cs : List Char, splitCharList c cs ≠ []
  | [] => by simp [splitCharList]
  | x :: xs => by
    simp only [splitCharList]
    by_cases h : x = c
    · simp [h]
    · simp only [h, if_false]
      cases hr : splitCharList c xs with
      | nil => simp
      | cons y ys => simp

theorem parseCommaTags_truthy (payload : String) :
    pyTruthyStrList (parseCommaTags payload) = true := by
  have h := splitCharList_ne_nil ',' (pyRemoveSpaces payload).data
  simp only [pyTruthyStrList, parseCommaTags, pySplitComma, Bool.not_eq_true']
  cases hr : splitCharList ',' (pyRemoveSpaces payload).data with
  | nil => exact absurd hr h
  | cons y ys => simp

theorem matchLangTags_comment (l : String) (h : (matchLangTags l).isSome = true) :
    isCommentLine l = true := by
  simp only [matchLangTags, Option.isSome_map, isCommentLine] at *
  cases hs : stripWrapChars l.data with
  | none => simp [hs] at h
  | some p => simp

theorem matchNoSuffix_comment (l : String) (h : (matchNoSuffix l).isSome = true) :
    isCommentLine l = true := by
  simp only [matchNoSuffix, isCommentLine] at *
  cases hs : stripWrapChars l.data with
  | none => simp [hs] at h
  | some p => simp

theorem bind_if_ne_empty (o : Option (List Char)) (t : String)
    (h : (o.bind (fun cs => if cs = [] then none else some (⟨cs⟩ : String))) = some t) :
    t ≠ "" := by
  cases o with
  | none => simp at h
  | some cs =>
    simp only [Option.some_bind] at h
    by_cases hc : cs = []
    · simp [hc] at h
    · simp only [hc, if_false, Option.some.injEq] at h
      intro he
      apply hc
      have : (⟨cs⟩ : String) = ⟨[]⟩ := by rw [h]; exact he
      exact congrArg String.data this

theorem matchNoSuffix_ne_empty (l : String) (t : String) (h : matchNoSuffix l = some t) :
    t ≠ "" :=
  bind_if_ne_empty ((stripWrapChars l.data).bind (payloadAfterKey "no_suffix:".toList)) t h

theorem matchNoSuffix_truthy (l : String) (t : String) (h : matchNoSuffix l = some t) :
    pyTruthyOptStr (some t) = true := by
  have := matchNoSuffix_ne_empty l t h
  simp [pyTruthyOptStr, this]

theorem keys_exclusive (p : List Char) (h : ("lang_tags:".toList.isPrefixOf p) = true) :
    ("no_suffix:".toList.isPrefixOf p) = false := by
  have e1 : "lang_tags:".toList = ['l', 'a', 'n', 'g', '_', 't', 'a', 'g', 's', ':'] := by decide
  have e2 : "no_suffix:".toList = ['n', 'o', '_', 's', 'u', 'f', 'f', 'i', 'x', ':'] := by decide
  cases p with
  | nil => rw [e1] at h; simp [List.isPrefixOf] at h
  | cons x xs =>
    rw [e1] at h
    rw [e2]
    simp only [List.isPrefixOf, Bool.and_eq_true, beq_iff_eq] at h
    have hx : x = 'l' := h.1.symm
    simp [List.isPrefixOf, hx]

theorem payloadAfterKey_excl (p : List Char)
    (h : payloadAfterKey "lang_tags:".toList p ≠ none) :
    payloadAfterKey "no_suffix:".toList p = none := by
  unfold payloadAfterKey at *
  by_cases hk : ("lang_tags:".toList.isPrefixOf p) = true
  · rw [keys_exclusive p hk]
    simp
  · rw [if_neg hk] at h
    exact absurd rfl h

theorem matchLangTags_excl (l : String) (h : (matchLangTags l).isSome = true) :
    matchNoSuffix l = none := by
  rcases hs : stripWrapChars l.data with _ | p
  · unfold matchLangTags at h
    rw [hs] at h
    simp at h
  · unfold matchLangTags at h
    rw [hs] at h
    simp only [Option.some_bind, Option.isSome_map] at h
    have hne : payloadAfterKey "lang_tags:".toList p ≠ none := by
      intro hn
      rw [hn] at h
      simp at h
    unfold matchNoSuffix
    rw [hs]
    simp only [Option.some_bind]
    rw [payloadAfterKey_excl p hne]
    rfl

/-- The two kinds of configuration declaration. -/
inductive CKind where
  | langK
  | sufK
deriving DecidableEq, Repr

/-- The Python config name of a declaration kind. -/
def kindName : CKind → String
  | .langK => "lang_tags"
  | .sufK => "no_suffix"

/-- The kind of declaration a line holds, if any. -/
def declKind (l : String) : Option CKind :=
  if (matchLangTags l).isSome then some .langK
  else if (matchNoSuffix l).isSome then some .sufK
  else none

/-- 0-based indices of the unmasked lines holding a declaration of kind
`k`, starting the numbering at `n`. -/
def declPosAux (k : CKind) : List (String × Bool) → Nat → List Nat
  | [], _ => []
  | (l, m) :: rest, n =>
    if !m && declKind l == some k then n :: declPosAux k rest (n + 1)
    else declPosAux k rest (n + 1)

/-- Scan for the first duplicate declaration, carrying seen-flags for each
kind; returns its kind and 0-based index. -/
def scanDecls : List (String × Bool) → Nat → Bool → Bool → Option (CKind × Nat)
  | [], _, _, _ => none
  | (l, m) :: rest, n, sl, sn =>
    if m then scanDecls rest (n + 1) sl sn
    else
      match declKind l with
      | some .langK => if sl then some (.langK, n) else scanDecls rest (n + 1) true sn
      | some .sufK => if sn then some (.sufK, n) else scanDecls rest (n + 1) sl true
      | none => scanDecls rest (n + 1) sl sn

/-- Payload of the first unmasked `lang_tags` declaration. -/
def firstPayloadL : List (String × Bool) → Option String
  | [] => none
  | (l, m) :: rest =>
    if m then firstPayloadL rest
    else
      match matchLangTags l with
      | some p => some p
      | none => firstPayloadL rest

/-- Tag of the first unmasked `no_suffix` declaration. -/
def firstSufTagL : List (String × Bool) → Option String
  | [] => none
  | (l, m) :: rest =>
    if m then firstSufTagL rest
    else
      match matchNoSuffix l with
      | some t => some t
      | none => firstSufTagL rest

theorem declKind_sufK_lang (l : String) (h : declKind l = some .sufK) :
    matchLangTags l = none := by
  unfold declKind at h
  by_cases h1 : (matchLangTags l).isSome = true
  · simp [h1] at h
  · exact Option.not_isSome_iff_eq_none.mp h1

theorem declKind_none_lang (l : String) (h : declKind l = none) :
    matchLangTags l = none := by
  unfold declKind at h
  by_cases h1 : (matchLangTags l).isSome = true
  · simp [h1] at h
  · exact Option.not_isSome_iff_eq_none.mp h1

theorem declKind_none_suf (l : String) (h : declKind l = none) :
    matchNoSuffix l = none := by
  unfold declKind at h
  by_cases h1 : (matchLangTags l).isSome = true
  · simp [h1] at h
  · by_cases h2 : (matchNoSuffix l).isSome = true
    · simp [h1, h2] at h
    · exact Option.not_isSome_iff_eq_none.mp h2

theorem declKind_langK_suf (l : String) (h : declKind l = some .langK) :
    matchNoSuffix l = none := by
  unfold declKind at h
  by_cases h1 : (matchLangTags l).isSome = true
  · exact matchLangTags_excl l h1
  · by_cases h2 : (matchNoSuffix l).isSome = true
    · simp [h1, h2] at h
    · simp [h1, h2] at h

theorem declKind_langK_isSome (l : String) (h : declKind l = some .langK) :
    (matchLangTags l).isSome = true := by
  unfold declKind at h
  by_cases h1 : (matchLangTags l).isSome = true
  · exact h1
  · by_cases h2 : (matchNoSuffix l).isSome = true
    · simp [h1, h2] at h
    · simp [h1, h2] at h

theorem declKind_sufK_isSome (l : String) (h : declKind l = some .sufK) :
    (matchNoSuffix l).isSome = true := by
  unfold declKind at h
  by_cases h1 : (matchLangTags l).isSome = true
  · simp [h1] at h
  · by_cases h2 : (matchNoSuffix l).isSome = true
    · exact h2
    · simp [h1, h2] at h

theorem scan_none_no_lang : ∀ (zs : List (String × Bool)) (n : Nat) (sn : Bool),
    scanDecls zs n true sn = none → firstPayloadL zs = none
  | [], _, _, _ => rfl
  | (l, m) :: rest, n, sn, h => by
    cases m with
    | true =>
      simp only [scanDecls, if_true] at h
      simpa [firstPayloadL] using scan_none_no_lang rest (n + 1) sn h
    | false =>
      simp only [scanDecls, Bool.false_eq_true, if_false] at h
      cases hdk : declKind l with
      | some k =>
        cases k with
        | langK => rw [hdk] at h; simp at h
        | sufK =>
          rw [hdk] at h
          have hlt := declKind_sufK_lang l hdk
          by_cases hsn : sn = true
          · simp [hsn] at h
          · have hsn2 : sn = false := by
              cases sn
              · rfl
              · exact absurd rfl hsn
            subst hsn2
            simp only [Bool.false_eq_true, if_false] at h
            simpa [firstPayloadL, hlt] using scan_none_no_lang rest (n + 1) true h
      | none =>
        rw [hdk] at h
        have hlt := declKind_none_lang l hdk
        simpa [firstPayloadL, hlt] using scan_none_no_lang rest (n + 1) sn h

theorem scan_none_no_suf : ∀ (zs : List (String × Bool)) (n : Nat) (sl : Bool),
    scanDecls zs n sl true = none → firstSufTagL zs = none
  | [], _, _, _ => rfl
  | (l, m) :: rest, n, sl, h => by
    cases m with
    | true =>
      simp only [scanDecls, if_true] at h
      simpa [firstSufTagL] using scan_none_no_suf rest (n + 1) sl h
    | false =>
      simp only [scanDecls, Bool.false_eq_true, if_false] at h
      cases hdk : declKind l with
      | some k =>
        cases k with
        | sufK => rw [hdk] at h; simp at h
        | langK =>
          rw [hdk] at h
          have hst := declKind_langK_suf l hdk
          by_cases hsl : sl = true
          · simp [hsl] at h
          · have hsl2 : sl = false := by
              cases sl
              · rfl
              · exact absurd rfl hsl
            subst hsl2
            simp only [Bool.false_eq_true, if_false] at h
            simpa [firstSufTagL, hst] using scan_none_no_suf rest (n + 1) true h
      | none =>
        rw [hdk] at h
        have hst := declKind_none_suf l hdk
        simpa [firstSufTagL, hst] using scan_none_no_suf rest (n + 1) sl h

/-- Closed-form description of `extractLoop`: error at the first duplicate
declaration, otherwise the config recording the first match of each kind. -/
def scanResult (zs : List (String × Bool)) (n : Nat) (cfg : Config) : Except PyError Config :=
  match scanDecls zs n (pyTruthyStrList cfg.lang_tags) (pyTruthyOptStr cfg.no_suffix) with
  | some (k, i) => .error (.badConfigError (dupMsg (kindName k) (i + 1)))
  | none =>
    .ok ⟨(firstPayloadL zs).elim cfg.lang_tags parseCommaTags,
         (firstSufTagL zs).elim cfg.no_suffix some⟩

theorem extractLoop_eq : ∀ (zs : List (String × Bool)) (n : Nat) (cfg : Config),
    extractLoop zs n cfg = scanResult zs n cfg
  | [], n, cfg => by
    simp [extractLoop, scanResult, scanDecls, firstPayloadL, firstSufTagL]
  | (l, m) :: rest, n, cfg => by
    cases m with
    | true =>
      have hL : extractLoop ((l, true) :: rest) n cfg = extractLoop rest (n + 1) cfg := by
        simp [extractLoop]
      rw [hL, extractLoop_eq rest (n + 1) cfg]
      simp [scanResult, scanDecls, firstPayloadL, firstSufTagL]
    | false =>
      cases hdk : declKind l with
      | some k =>
        cases k with
        | langK =>
          have hsome := declKind_langK_isSome l hdk
          obtain ⟨p, hp⟩ := Option.isSome_iff_exists.mp hsome
          have hcom : isCommentLine l = true := matchLangTags_comment l hsome
          have hns : matchNoSuffix l = none := declKind_langK_suf l hdk
          by_cases hsl : pyTruthyStrList cfg.lang_tags = true
          · have hlhs : extractLoop ((l, false) :: rest) n cfg =
                .error (.badConfigError (dupMsg "lang_tags" (n + 1))) := by
              simp [extractLoop, hcom, _try_update_lang_tags, hp, hsl]
            rw [hlhs]
            simp [scanResult, scanDecls, hdk, hsl, kindName]
          · have hsl2 : pyTruthyStrList cfg.lang_tags = false := by
              cases h2 : pyTruthyStrList cfg.lang_tags
              · rfl
              · exact absurd h2 hsl
            have hlhs : extractLoop ((l, false) :: rest) n cfg =
                extractLoop rest (n + 1) { cfg with lang_tags := parseCommaTags p } := by
              simp [extractLoop, hcom, _try_update_lang_tags, hp, hsl2,
                _try_update_no_suffix, hns]
            rw [hlhs, extractLoop_eq rest (n + 1) { cfg with lang_tags := parseCommaTags p }]
            unfold scanResult
            simp only [parseCommaTags_truthy]
            rw [show ({ cfg with lang_tags := parseCommaTags p } : Config).no_suffix
                = cfg.no_suffix from rfl]
            have hscanL : scanDecls ((l, false) :: rest) n (pyTruthyStrList cfg.lang_tags)
                (pyTruthyOptStr cfg.no_suffix) =
                scanDecls rest (n + 1) true (pyTruthyOptStr cfg.no_suffix) := by
              simp [scanDecls, hdk, hsl2]
            rw [hscanL]
            cases hscan : scanDecls rest (n + 1) true (pyTruthyOptStr cfg.no_suffix) with
            | some ki => rfl
            | none =>
              have hfp : firstPayloadL rest = none := scan_none_no_lang rest (n + 1) _ hscan
              simp [firstPayloadL, firstSufTagL, hp, hns, hfp]
        | sufK =>
          have hsome := declKind_sufK_isSome l hdk
          obtain ⟨t, htg⟩ := Option.isSome_iff_exists.mp hsome
          have hcom : isCommentLine l = true := matchNoSuffix_comment l hsome
          have hlt : matchLangTags l = none := declKind_sufK_lang l hdk
          by_cases hsn : pyTruthyOptStr cfg.no_suffix = true
          · have hlhs : extractLoop ((l, false) :: rest) n cfg =
                .error (.badConfigError (dupMsg "no_suffix" (n + 1))) := by
              simp [extractLoop, hcom, _try_update_lang_tags, hlt,
                _try_update_no_suffix, htg, hsn]
            rw [hlhs]
            simp [scanResult, scanDecls, hdk, hsn, kindName]
          · have hsn2 : pyTruthyOptStr cfg.no_suffix = false := by
              cases h2 : pyTruthyOptStr cfg.no_suffix
              · rfl
              · exact absurd h2 hsn
            have hlhs : extractLoop ((l, false) :: rest) n cfg =
                extractLoop rest (n + 1) { cfg with no_suffix := some t } := by
              simp [extractLoop, hcom, _try_update_lang_tags, hlt,
                _try_update_no_suffix, htg, hsn2]
            rw [hlhs, extractLoop_eq rest (n + 1) { cfg with no_suffix := some t }]
            unfold scanResult
            simp only [matchNoSuffix_truthy l t htg]
            rw [show ({ cfg with no_suffix := some t } : Config).lang_tags
                = cfg.lang_tags from rfl]
            have hscanS : scanDecls ((l, false) :: rest) n (pyTruthyStrList cfg.lang_tags)
                (pyTruthyOptStr cfg.no_suffix) =
                scanDecls rest (n + 1) (pyTruthyStrList cfg.lang_tags) true := by
              simp [scanDecls, hdk, hsn2]
            rw [hscanS]
            cases hscan : scanDecls rest (n + 1) (pyTruthyStrList cfg.lang_tags) true with
            | some ki => rfl
            | none =>
              have hfs : firstSufTagL rest = none := scan_none_no_suf rest (n + 1) _ hscan
              simp [firstPayloadL, firstSufTagL, htg, hlt, hfs]
      | none =>
        have hlt : matchLangTags l = none := declKind_none_lang l hdk
        have hst : matchNoSuffix l = none := declKind_none_suf l hdk
        have hlhs : extractLoop ((l, false) :: rest) n cfg = extractLoop rest (n + 1) cfg := by
          by_cases hcom : isCommentLine l = true
          · simp [extractLoop, hcom, _try_update_lang_tags, hlt, _try_update_no_suffix, hst]
          · simp [extractLoop, hcom]
        rw [hlhs, extractLoop_eq rest (n + 1) cfg]
        unfold scanResult
        have hscanN : scanDecls ((l, false) :: rest) n (pyTruthyStrList cfg.lang_tags)
            (pyTruthyOptStr cfg.no_suffix) =
            scanDecls rest (n + 1) (pyTruthyStrList cfg.lang_tags)
              (pyTruthyOptStr cfg.no_suffix) := by
          simp [scanDecls, hdk]
        rw [hscanN]
        cases hscan : scanDecls rest (n + 1) (pyTruthyStrList cfg.lang_tags)
            (pyTruthyOptStr cfg.no_suffix) with
        | some ki => rfl
        | none => simp [firstPayloadL, firstSufTagL, hlt, hst]

/-- Which seen-flag governs a declaration kind. -/
def dupSeen (k : CKind) (sl sn : Bool) : Bool :=
  match k with
  | .langK => sl
  | .sufK => sn

theorem scanDecls_none_iff : ∀ (zs : List (String × Bool)) (n : Nat) (sl sn : Bool),
    scanDecls zs n sl sn = none ↔
      (declPosAux .langK zs n).length + (if sl then 1 else 0) ≤ 1 ∧
        (declPosAux .sufK zs n).length + (if sn then 1 else 0) ≤ 1
  | [], n, sl, sn => by
    simp only [scanDecls, declPosAux, List.length_nil, Nat.zero_add, true_iff]
    constructor
    · split <;> omega
    · split <;> omega
  | (l, m) :: rest, n, sl, sn => by
    cases m with
    | true =>
      simp only [scanDecls, if_true, declPosAux, Bool.not_true, Bool.false_and,
        Bool.false_eq_true, if_false]
      exact scanDecls_none_iff rest (n + 1) sl sn
    | false =>
      simp only [scanDecls, Bool.false_eq_true, if_false, declPosAux, Bool.not_false,
        Bool.true_and]
      cases hdk : declKind l with
      | some k =>
        cases k with
        | langK =>
          simp only [show (some CKind.langK == some CKind.langK) = true from rfl,
            show (some CKind.langK == some CKind.sufK) = false from rfl, if_true, if_false,
            List.length_cons]
          cases sl with
          | true =>
            simp only [if_true]
            constructor
            · intro h
              simp at h
            · intro h
              omega
          | false =>
            simp only [Bool.false_eq_true, if_false]
            rw [scanDecls_none_iff rest (n + 1) true sn]
            constructor
            · intro ⟨h1, h2⟩
              constructor
              · simp only [if_true] at h1
                omega
              · exact h2
            · intro ⟨h1, h2⟩
              constructor
              · simp only [if_true]
                omega
              · exact h2
        | sufK =>
          simp only [show (some CKind.sufK == some CKind.langK) = false from rfl,
            show (some CKind.sufK == some CKind.sufK) = true from rfl, if_true, if_false,
            List.length_cons]
          cases sn with
          | true =>
            simp only [if_true]
            constructor
            · intro h
              simp at h
            · intro h
              omega
          | false =>
            simp only [Bool.false_eq_true, if_false]
            rw [scanDecls_none_iff rest (n + 1) sl true]
            constructor
            · intro ⟨h1, h2⟩
              refine ⟨h1, ?_⟩
              simp only [if_true] at h2
              omega
            · intro ⟨h1, h2⟩
              refine ⟨h1, ?_⟩
              simp only [if_true]
              omega
      | none =>
        have hb : ∀ k2 : CKind, ((none : Option CKind) == some k2) = false := by
          intro k2
          rfl
        simp only [hb, if_false]
        exact scanDecls_none_iff rest (n + 1) sl sn

theorem scanDecls_some_pos : ∀ (zs : List (String × Bool)) (n : Nat) (sl sn : Bool)
    (k : CKind) (i : Nat), scanDecls zs n sl sn = some (k, i) →
    (declPosAux k zs n).get? (if dupSeen k sl sn then 0 else 1) = some i
  | [], _, _, _, _, _, h => by simp [scanDecls] at h
  | (l, m) :: rest, n, sl, sn, k, i, h => by
    cases m with
    | true =>
      simp only [scanDecls, if_true] at h
      simpa [declPosAux] using scanDecls_some_pos rest (n + 1) sl sn k i h
    | false =>
      simp only [scanDecls, Bool.false_eq_true, if_false] at h
      cases hdk : declKind l with
      | some k0 =>
        rw [hdk] at h
        cases k0 with
        | langK =>
          cases hsl : sl with
          | true =>
            rw [hsl] at h
            simp only [if_true, Option.some.injEq, Prod.mk.injEq] at h
            obtain ⟨hk, hi⟩ := h
            subst hk
            subst hi
            simp [declPosAux, hdk, dupSeen]
          | false =>
            rw [hsl] at h
            simp only [Bool.false_eq_true, if_false] at h
            have ih := scanDecls_some_pos rest (n + 1) true sn k i h
            cases k with
            | langK =>
              simp only [dupSeen] at ih ⊢
              simp only [declPosAux, Bool.not_false, Bool.true_and,
                show (declKind l == some CKind.langK) = true by simp [hdk], if_true,
                Bool.false_eq_true, if_false, List.get?]
              simpa using ih
            | sufK =>
              simp only [dupSeen] at ih ⊢
              simpa [declPosAux, hdk] using ih
        | sufK =>
          cases hsn : sn with
          | true =>
            rw [hsn] at h
            simp only [if_true, Option.some.injEq, Prod.mk.injEq] at h
            obtain ⟨hk, hi⟩ := h
            subst hk
            subst hi
            simp [declPosAux, hdk, dupSeen]
          | false =>
            rw [hsn] at h
            simp only [Bool.false_eq_true, if_false] at h
            have ih := scanDecls_some_pos rest (n + 1) sl true k i h
            cases k with
            | sufK =>
              simp only [dupSeen] at ih ⊢
              simp only [declPosAux, Bool.not_false, Bool.true_and,
                show (declKind l == some CKind.sufK) = true by simp [hdk], if_true,
                Bool.false_eq_true, if_false, List.get?]
              simpa using ih
            | langK =>
              simp only [dupSeen] at ih ⊢
              simpa [declPosAux, hdk] using ih
      | none =>
        rw [hdk] at h
        simpa [declPosAux, hdk] using scanDecls_some_pos rest (n + 1) sl sn k i h

/-- 0-based indices of the unmasked lines of `doc` declaring `k`. -/
def declPositions (k : CKind) (doc : List String) : List Nat :=
  declPosAux k (doc.zip (flag_code_block_lines doc)) 0

/-- Payload of the first unmasked `lang_tags` declaration of `doc`. -/
def firstLangPayload (doc : List String) : Option String :=
  firstPayloadL (doc.zip (flag_code_block_lines doc))

/-- Tag of the first unmasked `no_suffix` declaration of `doc`. -/
def firstNoSuffixTag (doc : List String) : Option String :=
  firstSufTagL (doc.zip (flag_code_block_lines doc))

/-- C3. `extract_config_from_md` raises `BadConfigError` iff `lang_tags`
or `no_suffix` is declared at least twice on unmasked lines; the error
message embeds the 1-based line number of the second occurrence of the
offending kind; otherwise the returned `Config` records the first match
of each kind (`src/mmg/config.py` lines 50-75). -/
theorem claim_C3 (doc : List String) :
    ((∃ e, extract_config_from_md doc = .error e) ↔
      2 ≤ (declPositions CKind.langK doc).length ∨ 2 ≤ (declPositions CKind.sufK doc).length)
    ∧ (∀ m, extract_config_from_md doc = .error (.badConfigError m) →
        ∃ k i, (declPositions k doc).get? 1 = some i ∧ ∃ p q, m = p ++ toString (i + 1) ++ q)
    ∧ ((declPositions CKind.langK doc).length ≤ 1 →
        (declPositions CKind.sufK doc).length ≤ 1 →
        extract_config_from_md doc =
          .ok ⟨(firstLangPayload doc).elim [] parseCommaTags, firstNoSuffixTag doc⟩) := by
  have hrw : extract_config_from_md doc =
      scanResult (doc.zip (flag_code_block_lines doc)) 0 {} :=
    extractLoop_eq (doc.zip (flag_code_block_lines doc)) 0 {}
  have hfl : pyTruthyStrList (Config.lang_tags {}) = false := rfl
  have hfs : pyTruthyOptStr (Config.no_suffix {}) = false := rfl
  refine ⟨?_, ?_, ?_⟩
  · rw [hrw]
    unfold scanResult
    rw [hfl, hfs]
    cases hscan : scanDecls (doc.zip (flag_code_block_lines doc)) 0 false false with
    | some ki =>
      have h2 : ¬((declPosAux CKind.langK (doc.zip (flag_code_block_lines doc)) 0).length
            + (if false then 1 else 0) ≤ 1 ∧
          (declPosAux CKind.sufK (doc.zip (flag_code_block_lines doc)) 0).length
            + (if false then 1 else 0) ≤ 1) := by
        intro hc
        rw [(scanDecls_none_iff _ 0 false false).mpr hc] at hscan
        cases hscan
      simp only [Bool.false_eq_true, if_false, Nat.add_zero] at h2
      constructor
      · intro _
        unfold declPositions
        omega
      · intro _
        obtain ⟨k0, i0⟩ := ki
        exact ⟨_, rfl⟩
    | none =>
      have h2 := (scanDecls_none_iff _ 0 false false).mp hscan
      simp only [Bool.false_eq_true, if_false, Nat.add_zero] at h2
      constructor
      · intro ⟨e, he⟩
        cases he
      · intro hor
        unfold declPositions at hor
        omega
  · intro m hm
    rw [hrw] at hm
    unfold scanResult at hm
    rw [hfl, hfs] at hm
    cases hscan : scanDecls (doc.zip (flag_code_block_lines doc)) 0 false false with
    | none =>
      rw [hscan] at hm
      cases hm
    | some ki =>
      obtain ⟨k0, i0⟩ := ki
      rw [hscan] at hm
      have hmv : m = dupMsg (kindName k0) (i0 + 1) := by
        cases hm
        rfl
      refine ⟨k0, i0, ?_, ?_⟩
      · have hpos := scanDecls_some_pos _ 0 false false k0 i0 hscan
        have hds : dupSeen k0 false false = false := by
          cases k0
          · rfl
          · rfl
        rw [hds] at hpos
        simp only [Bool.false_eq_true, if_false] at hpos
        unfold declPositions
        exact hpos
      · exact ⟨dupDeclMsg (kindName k0) ++ " [Check line: ", "]", hmv⟩
  · intro h1 h2
    rw [hrw]
    unfold scanResult
    rw [hfl, hfs]
    have hnone : scanDecls (doc.zip (flag_code_block_lines doc)) 0 false false = none := by
      apply (scanDecls_none_iff _ 0 false false).mpr
      unfold declPositions at h1 h2
      simp only [Bool.false_eq_true, if_false, Nat.add_zero]
      exact ⟨h1, h2⟩
    rw [hnone]
    unfold firstLangPayload firstNoSuffixTag
    cases hsf : firstSufTagL (doc.zip (flag_code_block_lines doc)) with
    | none => rfl
    | some t => rfl

/-- Witness for C3 at a concrete duplicate-free document. -/
theorem claim_C3_witness :
    (declPositions CKind.langK ["<!-- lang_tags: en,es -->", "<!-- no_suffix: en -->"]).length ≤ 1
    ∧ (declPositions CKind.sufK ["<!-- lang_tags: en,es -->", "<!-- no_suffix: en -->"]).length ≤ 1
    ∧ extract_config_from_md ["<!-- lang_tags: en,es -->", "<!-- no_suffix: en -->"]
        = .ok ⟨["en", "es"], some "en"⟩ :=
  ⟨by decide, by decide,
    ((claim_C3 ["<!-- lang_tags: en,es -->", "<!-- no_suffix: en -->"]).2.2
      (by decide) (by decide)).trans (by decide)⟩

mutual

/-- The shape-preservation relation of the tree-conversion claim: same
ordered key lists and array lengths at every level, every `mmg` entry
copied exactly, non-string scalars equal, string leaves free to differ. -/
def preservesY : Yaml → Yaml → Bool
  | .dict kvs, .dict kvs2 => preservesD kvs kvs2
  | .list xs, .list ys => preservesL xs ys
  | .str _, .str _ => true
  | x, y => decide (x = y)

def preservesD : List (String × Yaml) → List (String × Yaml) → Bool
  | [], [] => true
  | (k, v) :: r, (k2, v2) :: r2 =>
    k == k2 && (if k == "mmg" then decide (v2 = v) else preservesY v v2) && preservesD r r2
  | _, _ => false

def preservesL : List Yaml → List Yaml → Bool
  | [], [] => true
  | x :: xs, y :: ys => preservesY x y && preservesL xs ys
  | _, _ => false

end

mutual

theorem preservesY_classify (tags : List String) (lang : String) :
    (y : Yaml) → preservesY y (classifyYamlLang tags lang y) = true
  | .dict kvs => by
    simpa [classifyYamlLang, preservesY] using preservesD_classify tags lang kvs
  | .list xs => by
    simpa [classifyYamlLang, preservesY] using preservesL_classify tags lang xs
  | .str s => by simp [classifyYamlLang, preservesY]
  | .int n => by simp [classifyYamlLang, preservesY]
  | .bool b => by simp [classifyYamlLang, preservesY]
  | .null => by simp [classifyYamlLang, preservesY]

theorem preservesD_classify (tags : List String) (lang : String) :
    (kvs : List (String × Yaml)) → preservesD kvs (classifyYamlKvs tags lang kvs) = true
  | [] => by simp [classifyYamlKvs, preservesD]
  | (k, v) :: rest => by
    simp only [classifyYamlKvs, preservesD, Bool.and_eq_true, beq_self_eq_true, true_and]
    refine ⟨?_, preservesD_classify tags lang rest⟩
    by_cases hk : (k == "mmg") = true
    · simp [hk]
    · have hk2 : (k == "mmg") = false := by
        cases h2 : (k == "mmg")
        · rfl
        · exact absurd h2 hk
      simp only [hk2, Bool.false_eq_true, if_false]
      exact preservesY_classify tags lang v

theorem preservesL_classify (tags : List String) (lang : String) :
    (xs : List Yaml) → preservesL xs (classifyYamlList tags lang xs) = true
  | [] => by simp [classifyYamlList, preservesL]
  | x :: xs => by
    simp only [classifyYamlList, preservesL, Bool.and_eq_true]
    exact ⟨preservesY_classify tags lang x, preservesL_classify tags lang xs⟩

end

theorem convert_base_yml_ok (base : List (String × Yaml)) (cfg? : Option Config)
    (skip force : Bool) (res : List (String × Yaml))
    (h : convert_base_yml base cfg? skip force = .ok res) :
    ∃ tags : List String, res = process_obj tags (.dict base) := by
  unfold convert_base_yml at h
  split at h
  · cases h
  · rename_i cfg heq
    split at h
    · cases h
    · cases h
      exact ⟨cfg.lang_tags, rfl⟩

/-- C4. Tree shape preservation (spec 8; `process_obj` of
`src/mmg/api.py` lines 212-250): every per-language output of a
successful `convert_base_yml` call has the input's ordered key sets and
array lengths at every level, every `mmg` entry (the reserved
configuration key) structurally identical to the input's, non-string
scalars preserved exactly, and only string leaves differing. -/
theorem claim_C4 (base : List (String × Yaml)) (cfg? : Option Config)
    (skip force : Bool) (res : List (String × Yaml))
    (h : convert_base_yml base cfg? skip force = .ok res) :
    ∀ p ∈ res, preservesY (Yaml.dict base) p.2 = true := by
  obtain ⟨tags, htags⟩ := convert_base_yml_ok base cfg? skip force res h
  subst htags
  intro p hp
  unfold process_obj at hp
  obtain ⟨lang, _, hpe⟩ := List.mem_map.mp hp
  rw [← hpe]
  exact preservesY_classify tags lang (Yaml.dict base)

/-- Witness for C4 at a concrete successful tree conversion. -/
theorem claim_C4_witness :
    convert_base_yml
        [("mmg", .dict [("lang_tags", .str "en")]), ("msg", .str "<!-- [en] -->\nHi"),
         ("n", .int 3)]
        (some ⟨["en"], none⟩) true false
      = .ok [("en", .dict [("mmg", .dict [("lang_tags", .str "en")]), ("msg", .str "Hi"),
              ("n", .int 3)])] ∧
    ∀ p ∈ [(("en" : String), Yaml.dict [("mmg", .dict [("lang_tags", .str "en")]),
            ("msg", .str "Hi"), ("n", .int 3)])],
      preservesY (Yaml.dict [("mmg", .dict [("lang_tags", .str "en")]),
        ("msg", .str "<!-- [en] -->\nHi"), ("n", .int 3)]) p.2 = true :=
  ⟨by decide,
    claim_C4
      [("mmg", .dict [("lang_tags", .str "en")]), ("msg", .str "<!-- [en] -->\nHi"),
       ("n", .int 3)]
      (some ⟨["en"], none⟩) true false _ (by decide)⟩

/-- C5, counterexample to the claim as stated: declaring the reserved
keyword `common` in `lang_tags` puts it straight into the extracted
config — neither `extract_config_from_yml` nor `extract_config_from_md`
consults `RESERVED_KEYWORDS` (`src/mmg/config.py`: the constant is
declared at line 8 but never used by the extractors). -/
theorem claim_C5_counterexample :
    extract_config_from_yml [("mmg", .dict [("lang_tags", .str "common,en")])]
      = .ok ⟨.list [.str "common", .str "en"], none⟩ ∧
    ("common" : String) ∈ RESERVED_KEYWORDS := by
  constructor
  · decide
  · decide

/-- C5, amended: configuration extraction performs no reserved-keyword
filtering — a `lang_tags` declaration listing any of the reserved
keywords `common`, `ignore`, `<Unknown>` yields a config whose
`lang_tags` contains exactly that keyword, in both the YAML list form and
the markdown declaration form. -/
theorem claim_C5_amended :
    ∀ r ∈ RESERVED_KEYWORDS,
      extract_config_from_yml [("mmg", .dict [("lang_tags", .list [.str r])])]
        = .ok ⟨.list [.str r], none⟩ ∧
      extract_config_from_md ["<!-- lang_tags: " ++ r ++ " -->"] = .ok ⟨[r], none⟩ := by
  decide

/-- Witness for C5 (amended) at the keyword `common`. -/
theorem claim_C5_amended_witness :
    ("common" : String) ∈ RESERVED_KEYWORDS ∧
    extract_config_from_yml [("mmg", .dict [("lang_tags", .list [.str "common"])])]
      = .ok ⟨.list [.str "common"], none⟩ :=
  ⟨by decide, (claim_C5_amended "common" (by decide)).1⟩

/-- Entry contains no comma. -/
def commaFree (t : String) : Bool := t.data.all (fun c => c != ',')

/-- Entry contains no space character. -/
def spaceFree (t : String) : Bool := t.data.all (fun c => c != ' ')

/-- The comma-separated string joining a list of entries. -/
def joinCS (entries : List String) : String := ⟨joinWith ',' (entries.map String.data)⟩

theorem string_eta (s : String) : (⟨s.data⟩ : String) = s := rfl

theorem splitCharList_prepend (c : Char) :
    ∀ (x cs : List Char), (∀ a ∈ x, a ≠ c) →
      splitCharList c (x ++ cs) =
        (x ++ (splitCharList c cs).headD []) :: (splitCharList c cs).tail
  | [], cs, _ => by
    cases hr : splitCharList c cs with
    | nil => exact absurd hr (splitCharList_ne_nil c cs)
    | cons y ys => simp [hr]
  | a :: x, cs, h => by
    have ha : a ≠ c := h a (List.mem_cons_self a x)
    have hx : ∀ b ∈ x, b ≠ c := fun b hb => h b (List.mem_cons_of_mem a hb)
    simp only [List.cons_append, splitCharList, ha, if_false, List.append_eq]
    rw [splitCharList_prepend c x cs hx]

theorem splitCharList_joinWith (c : Char) :
    ∀ (chunks : List (List Char)), chunks ≠ [] → (∀ cs ∈ chunks, ∀ a ∈ cs, a ≠ c) →
      splitCharList c (joinWith c chunks) = chunks
  | [], hne, _ => absurd rfl hne
  | [x], _, h => by
    have hx : ∀ a ∈ x, a ≠ c := h x (List.mem_singleton_self x)
    have := splitCharList_prepend c x [] hx
    simpa [joinWith, splitCharList] using this
  | x :: y :: rest, _, h => by
    have hx : ∀ a ∈ x, a ≠ c := h x (List.mem_cons_self x (y :: rest))
    have hrest : ∀ cs ∈ y :: rest, ∀ a ∈ cs, a ≠ c :=
      fun cs hcs => h cs (List.mem_cons_of_mem x hcs)
    have hne2 : (y :: rest : List (List Char)) ≠ [] := by simp
    show splitCharList c (x ++ c :: joinWith c (y :: rest)) = x :: y :: rest
    rw [splitCharList_prepend c x (c :: joinWith c (y :: rest)) hx]
    simp only [splitCharList, if_pos rfl]
    rw [splitCharList_joinWith c (y :: rest) hne2 hrest]
    simp

theorem filter_joinWith (p : Char → Bool) (c : Char) (hp : p c = true) :
    ∀ chunks : List (List Char),
      (joinWith c chunks).filter p = joinWith c (chunks.map (List.filter p))
  | [] => rfl
  | [x] => by simp [joinWith]
  | x :: y :: rest => by
    show (x ++ c :: joinWith c (y :: rest)).filter p =
      joinWith c (x.filter p :: (y :: rest).map (List.filter p))
    rw [List.filter_append, List.filter_cons]
    rw [filter_joinWith p c hp (y :: rest)]
    simp only [hp, if_true]
    cases hm : (y :: rest).map (List.filter p) with
    | nil => simp at hm
    | cons z zs => simp [joinWith]

theorem pyRemoveSpaces_eq_self (t : String) (h : spaceFree t = true) :
    pyRemoveSpaces t = t := by
  unfold pyRemoveSpaces
  have h2 : t.data.filter (fun c => c != ' ') = t.data :=
    List.filter_eq_self.mpr (fun a ha => (List.all_eq_true.mp h) a ha)
  rw [h2]

theorem pyStripS_eq_self (t : String) (h : trimChars t.data = t.data) :
    pyStripS t = t := by
  unfold pyStripS
  rw [h]

theorem parse_joinCS (entries : List String) (hne : entries ≠ [])
    (hcf : ∀ t ∈ entries, commaFree t = true) :
    parseCommaTags (joinCS entries) = entries.map pyRemoveSpaces := by
  unfold parseCommaTags joinCS pySplitComma pyRemoveSpaces
  simp only
  rw [filter_joinWith (fun c => c != ' ') ',' (by decide) (entries.map String.data)]
  rw [splitCharList_joinWith ',' ((entries.map String.data).map (List.filter (fun c => c != ' ')))
    ?_ ?_]
  · rw [List.map_map, List.map_map]
    rfl
  · simp [hne]
  · intro cs hcs a ha
    simp only [List.map_map, List.mem_map] at hcs
    obtain ⟨t, ht, hteq⟩ := hcs
    have h1 : a ∈ t.data.filter (fun c => c != ' ') := by
      rw [show (List.filter (fun c => c != ' ') ∘ String.data) t
          = t.data.filter (fun c => c != ' ') from rfl] at hteq
      rw [hteq]
      exact ha
    have h2 : a ∈ t.data := (List.mem_filter.mp h1).1
    have := (List.all_eq_true.mp (hcf t ht)) a h2
    simpa using this

theorem parse_joinCS_self (entries : List String) (hne : entries ≠ [])
    (hcf : ∀ t ∈ entries, commaFree t = true) (hsf : ∀ t ∈ entries, spaceFree t = true) :
    parseCommaTags (joinCS entries) = entries := by
  rw [parse_joinCS entries hne hcf]
  have h1 : ∀ t ∈ entries, pyRemoveSpaces t = id t :=
    fun t ht => pyRemoveSpaces_eq_self t (hsf t ht)
  rw [List.map_congr_left h1, List.map_id]

theorem keysPair {β : Type} (f : String → β) :
    ∀ tags : List String, ((tags.map (fun t => (t, f t))).map Prod.fst) = tags
  | [] => rfl
  | t :: ts => by
    simp only [List.map_cons]
    rw [keysPair f ts]

theorem keysPair2 {β γ : Type} (f : String → β) (g : β → γ) :
    ∀ tags : List String,
      (((tags.map (fun t => (t, f t))).map (fun p => (p.1, g p.2))).map Prod.fst) = tags
  | [] => rfl
  | t :: ts => by
    simp only [List.map_cons]
    rw [keysPair2 f g ts]

theorem keysPair3 {β γ δ : Type} (f : String → β) (g : β → γ) (gg : γ → δ) :
    ∀ tags : List String,
      ((((tags.map (fun t => (t, f t))).map (fun p => (p.1, g p.2))).map
        (fun p => (p.1, gg p.2))).map Prod.fst) = tags
  | [] => rfl
  | t :: ts => by
    simp only [List.map_cons]
    rw [keysPair3 f g gg ts]

theorem convert_base_doc_ok (doc : List String) (cfg? : Option Config) (skip force : Bool)
    (res : List (String × List String)) (h : convert_base_doc doc cfg? skip force = .ok res) :
    ∃ cfg, (match cfg? with
        | some c => Except.ok c
        | none => extract_config_from_md doc : Except PyError Config) = .ok cfg ∧
      res = insertTocDocs (classify cfg.lang_tags doc) := by
  unfold convert_base_doc at h
  split at h
  · cases h
  · rename_i cfg heq
    split at h
    · cases h
    · cases h
      exact ⟨cfg, heq, rfl⟩

theorem convert_base_jupyter_ok (nb : Notebook) (cfg? : Option Config) (skip force : Bool)
    (res : List (String × Notebook))
    (h : convert_base_jupyter nb cfg? skip force = .ok res) :
    ∃ cfg, (match cfg? with
        | some c => Except.ok c
        | none => extract_config_from_jupyter nb : Except PyError Config) = .ok cfg ∧
      res = cfg.lang_tags.map
        (fun t => ((t, ⟨classifyCellsFor cfg.lang_tags t nb.cells⟩) : String × Notebook)) := by
  unfold convert_base_jupyter at h
  split at h
  · cases h
  · rename_i cfg heq
    split at h
    · cases h
    · cases h
      exact ⟨cfg, heq, rfl⟩

theorem convert_base_yml_ok2 (base : List (String × Yaml)) (cfg? : Option Config)
    (skip force : Bool) (res : List (String × Yaml))
    (h : convert_base_yml base cfg? skip force = .ok res) :
    ∃ cfg, (match cfg? with
        | some c => Except.ok c
        | none =>
          match extract_config_from_yml base with
          | .error e => .error e
          | .ok cv => configOfV cv : Except PyError Config) = .ok cfg ∧
      res = process_obj cfg.lang_tags (.dict base) := by
  unfold convert_base_yml at h
  split at h
  · cases h
  · rename_i cfg heq
    split at h
    · cases h
    · cases h
      exact ⟨cfg, heq, rfl⟩

/-- C6, counterexample to the claim as stated: in the comma-separated
string form the declared entry `en us` is extracted as `enus` — the
interior space is removed (`replace(" ", "")` in `src/mmg/config.py`
lines 32 and 109), not just surrounding whitespace. -/
theorem claim_C6_counterexample :
    extract_config_from_yml [("mmg", .dict [("lang_tags", .str "en us, fr")])]
      = .ok ⟨.list [.str "enus", .str "fr"], none⟩ ∧
    pyStripS "en us" = "en us" ∧ ("enus" : String) ≠ "en us" := by
  refine ⟨by decide, by decide, by decide⟩

/-- C6, amended: only the YAML list form strips surrounding whitespace
per entry (`str(tag).strip()`); the comma-separated string forms
(markdown and YAML) instead remove every space character — interior
spaces included — from the whole declaration before splitting on commas,
and leave other whitespace (e.g. tabs) in place. -/
theorem claim_C6_amended :
    (∀ xs : List Yaml,
      extract_config_from_yml [("mmg", .dict [("lang_tags", .list xs)])]
        = .ok ⟨.list (xs.map (fun t => .str (pyStripS (pyStr t)))), none⟩)
    ∧ (∀ entries : List String, entries ≠ [] → (∀ t ∈ entries, commaFree t = true) →
        parseCommaTags (joinCS entries) = entries.map pyRemoveSpaces) := by
  constructor
  · intro xs
    rfl
  · exact parse_joinCS

/-- Witness for C6 (amended) at concrete entries. -/
theorem claim_C6_amended_witness :
    ((["en us", "fr"] : List String) ≠ []) ∧
    (∀ t ∈ (["en us", "fr"] : List String), commaFree t = true) ∧
    parseCommaTags (joinCS ["en us", "fr"]) = ["enus", "fr"] :=
  ⟨by decide, by decide,
    (claim_C6_amended.2 ["en us", "fr"] (by decide) (by decide)).trans (by decide)⟩

/-- C7. Declared order is preserved: parsing a comma-separated
declaration of clean entries returns exactly those entries in order, and
every successful conversion entry point enumerates its per-language
outputs (the keys of the returned mapping) in the order of the effective
config's `lang_tags`. -/
theorem claim_C7 :
    (∀ entries : List String, entries ≠ [] →
      (∀ t ∈ entries, commaFree t = true ∧ spaceFree t = true) →
      parseCommaTags (joinCS entries) = entries)
    ∧ (∀ (doc : List String) (cfg : Config) (skip force : Bool) res,
        convert_base_doc doc (some cfg) skip force = .ok res →
        res.map Prod.fst = cfg.lang_tags)
    ∧ (∀ (doc : List String) (skip force : Bool) res,
        convert_base_doc doc none skip force = .ok res →
        ∃ cfg, extract_config_from_md doc = .ok cfg ∧ res.map Prod.fst = cfg.lang_tags)
    ∧ (∀ (s : String) (cfg : Config) (skip force : Bool) res,
        convert s (some cfg) skip force = .ok res → res.map Prod.fst = cfg.lang_tags)
    ∧ (∀ (nb : Notebook) (cfg : Config) (skip force : Bool) res,
        convert_base_jupyter nb (some cfg) skip force = .ok res →
        res.map Prod.fst = cfg.lang_tags)
    ∧ (∀ (base : List (String × Yaml)) (cfg : Config) (skip force : Bool) res,
        convert_base_yml base (some cfg) skip force = .ok res →
        res.map Prod.fst = cfg.lang_tags) := by
  refine ⟨?_, ?_, ?_, ?_, ?_, ?_⟩
  · intro entries hne hcs
    exact parse_joinCS_self entries hne (fun t ht => (hcs t ht).1) (fun t ht => (hcs t ht).2)
  · intro doc cfg skip force res h
    obtain ⟨cfg2, hcfg, hres⟩ := convert_base_doc_ok doc (some cfg) skip force res h
    have hc2 : cfg2 = cfg := by
      cases hcfg
      rfl
    subst hc2
    subst hres
    unfold insertTocDocs classify
    exact keysPair2 _ _ cfg2.lang_tags
  · intro doc skip force res h
    obtain ⟨cfg2, hcfg, hres⟩ := convert_base_doc_ok doc none skip force res h
    refine ⟨cfg2, hcfg, ?_⟩
    subst hres
    unfold insertTocDocs classify
    exact keysPair2 _ _ cfg2.lang_tags
  · intro s cfg skip force res h
    unfold convert at h
    split at h
    · cases h
    · rename_i docs heq
      cases h
      obtain ⟨cfg2, hcfg, hres⟩ := convert_base_doc_ok (pySplitlines s) (some cfg)
        skip force docs heq
      have hc2 : cfg2 = cfg := by
        cases hcfg
        rfl
      subst hc2
      subst hres
      unfold insertTocDocs classify
      exact keysPair3 _ _ _ cfg2.lang_tags
  · intro nb cfg skip force res h
    obtain ⟨cfg2, hcfg, hres⟩ := convert_base_jupyter_ok nb (some cfg) skip force res h
    have hc2 : cfg2 = cfg := by
      cases hcfg
      rfl
    subst hc2
    subst hres
    exact keysPair _ cfg2.lang_tags
  · intro base cfg skip force res h
    obtain ⟨cfg2, hcfg, hres⟩ := convert_base_yml_ok2 base (some cfg) skip force res h
    have hc2 : cfg2 = cfg := by
      cases hcfg
      rfl
    subst hc2
    subst hres
    unfold process_obj
    exact keysPair _ cfg2.lang_tags

/-- Witness for C7 at concrete entries and a concrete conversion. -/
theorem claim_C7_witness :
    ((["en", "es"] : List String) ≠ []) ∧
    parseCommaTags (joinCS ["en", "es"]) = ["en", "es"] ∧
    convert_base_doc ["hey"] (some ⟨["en", "es"], none⟩) true false
      = .ok [("en", ["hey"]), ("es", ["hey"])] ∧
    ([("en", ["hey"]), ("es", ["hey"])].map
        (Prod.fst (α := String) (β := List String))) = ["en", "es"] :=
  ⟨by decide, claim_C7.1 ["en", "es"] (by decide) (by decide), by decide,
    claim_C7.2.1 ["hey"] ⟨["en", "es"], none⟩ true false _ (by decide)⟩

/-- C8, counterexample to the claim as stated: for the entry sequence
`["en us"]` the comma-separated string form and the explicit list form
yield different configs (`enus` vs `en us`). -/
theorem claim_C8_counterexample :
    extract_config_from_yml [("mmg", .dict [("lang_tags", .str "en us")])]
      ≠ extract_config_from_yml [("mmg", .dict [("lang_tags", .list [.str "en us"])])] := by
  decide

/-- C8, amended: the string form and the list form of `mmg.lang_tags`
yield the same `Config` provided the entry sequence is nonempty and each
entry contains no comma, contains no space character, and carries no
surrounding whitespace; in general the forms differ (the string form
removes all spaces, the list form strips surrounding whitespace only). -/
theorem claim_C8_amended (entries : List String) (hne : entries ≠ [])
    (hgood : ∀ t ∈ entries,
      commaFree t = true ∧ spaceFree t = true ∧ trimChars t.data = t.data) :
    extract_config_from_yml [("mmg", .dict [("lang_tags", .str (joinCS entries))])]
      = extract_config_from_yml [("mmg", .dict [("lang_tags", .list (entries.map Yaml.str))])]
    := by
  have hstr : extract_config_from_yml [("mmg", .dict [("lang_tags", .str (joinCS entries))])]
      = .ok ⟨.list ((parseCommaTags (joinCS entries)).map Yaml.str), none⟩ := rfl
  have hlst : extract_config_from_yml
        [("mmg", .dict [("lang_tags", .list (entries.map Yaml.str))])]
      = .ok ⟨.list ((entries.map Yaml.str).map (fun t => .str (pyStripS (pyStr t)))), none⟩ :=
    rfl
  rw [hstr, hlst]
  rw [parse_joinCS_self entries hne (fun t ht => (hgood t ht).1) (fun t ht => (hgood t ht).2.1)]
  rw [List.map_map]
  have : ∀ t ∈ entries, Yaml.str t = ((fun t => Yaml.str (pyStripS (pyStr t))) ∘ Yaml.str) t := by
    intro t ht
    simp only [Function.comp]
    rw [show pyStr (Yaml.str t) = t from rfl, pyStripS_eq_self t (hgood t ht).2.2]
  rw [← List.map_congr_left this]

/-- Witness for C8 (amended) at concrete entries. -/
theorem claim_C8_amended_witness :
    ((["en", "es"] : List String) ≠ []) ∧
    extract_config_from_yml [("mmg", .dict [("lang_tags", .str (joinCS ["en", "es"]))])]
      = extract_config_from_yml [("mmg", .dict [("lang_tags",
          .list (["en", "es"].map Yaml.str))])] :=
  ⟨by decide, claim_C8_amended ["en", "es"] (by decide) (by decide)⟩

/-- C9. `extract_config_from_yml` is total over dictionary inputs and
never raises: its two duplicate-declaration branches guard a freshly
constructed config whose fields are falsy, so they are unreachable
(`src/mmg/config.py` lines 85-119); with `mmg` absent or not a mapping it
returns the default config. -/
theorem claim_C9 :
    (∀ base : List (String × Yaml), ∃ c, extract_config_from_yml base = .ok c)
    ∧ (∀ base : List (String × Yaml),
        (yLookup base "mmg" = none ∨
          (∃ v, yLookup base "mmg" = some v ∧ isYamlDict v = false)) →
        extract_config_from_yml base = .ok ⟨.list [], none⟩) := by
  constructor
  · intro base
    unfold extract_config_from_yml
    cases hv : (yLookup base "mmg").getD (Yaml.dict []) with
    | str s => exact ⟨_, rfl⟩
    | int n => exact ⟨_, rfl⟩
    | bool b => exact ⟨_, rfl⟩
    | null => exact ⟨_, rfl⟩
    | list xs => exact ⟨_, rfl⟩
    | dict mkvs =>
      by_cases hl : yHasKey mkvs "lang_tags" = true
      · by_cases hs : yHasKey mkvs "no_suffix" = true
        · exact ⟨⟨ymlLangTagsValue ((yLookup mkvs "lang_tags").getD (Yaml.list [])),
            some (pyStripS (pyStr ((yLookup mkvs "no_suffix").getD Yaml.null)))⟩,
            by simp [hl, hs, yTruthy, pyTruthyOptStr]⟩
        · exact ⟨⟨ymlLangTagsValue ((yLookup mkvs "lang_tags").getD (Yaml.list [])), none⟩,
            by simp [hl, hs, yTruthy, pyTruthyOptStr]⟩
      · by_cases hs : yHasKey mkvs "no_suffix" = true
        · exact ⟨⟨Yaml.list [],
            some (pyStripS (pyStr ((yLookup mkvs "no_suffix").getD Yaml.null)))⟩,
            by simp [hl, hs, yTruthy, pyTruthyOptStr]⟩
        · exact ⟨⟨Yaml.list [], none⟩,
            by simp [hl, hs, yTruthy, pyTruthyOptStr]⟩
  · intro base h
    rcases h with hnone | ⟨v, hv, hnd⟩
    · unfold extract_config_from_yml
      rw [hnone]
      rfl
    · unfold extract_config_from_yml
      rw [hv]
      cases v with
      | dict mkvs => simp [isYamlDict] at hnd
      | str s => rfl
      | int n => rfl
      | bool b => rfl
      | null => rfl
      | list xs => rfl

/-- Witness for C9 at a concrete mmg-free dictionary. -/
theorem claim_C9_witness :
    yLookup [("title", Yaml.str "Test")] "mmg" = none ∧
    extract_config_from_yml [("title", Yaml.str "Test")] = .ok ⟨.list [], none⟩ :=
  ⟨by decide, claim_C9.2 [("title", Yaml.str "Test")] (Or.inl (by decide))⟩

theorem trimChars_single (c : Char) :
    trimChars [c] = if wsChar c then [] else [c] := by
  by_cases hc : wsChar c = true
  · simp [trimChars, List.dropWhile, hc]
  · have hc2 : wsChar c = false := by
      cases h2 : wsChar c
      · rfl
      · exact absurd h2 hc
    simp [trimChars, List.dropWhile, hc2]

theorem stripWrapChars_single (c : Char) :
    stripWrapChars [c] = none ∨ stripWrapChars [c] = some [] := by
  unfold stripWrapChars
  rw [trimChars_single c]
  by_cases hw : wsChar c = true
  · simp [hw, List.isPrefixOf]
  · have hw2 : wsChar c = false := by
      cases h2 : wsChar c
      · rfl
      · exact absurd h2 hw
    simp only [hw2, Bool.false_eq_true, if_false]
    have h4 : ("<!--".toList.isPrefixOf [c]) = false := by
      have : "<!--".toList = ['<', '!', '-', '-'] := by decide
      rw [this]
      simp [List.isPrefixOf]
    rw [h4]
    simp only [Bool.false_and, Bool.false_eq_true, if_false]
    by_cases hsh : ("#".toList.isPrefixOf [c]) = true
    · rw [hsh]
      simp [trimChars]
    · have hsh2 : ("#".toList.isPrefixOf [c]) = false := by
        cases h2 : ("#".toList.isPrefixOf [c])
        · rfl
        · exact absurd h2 hsh
      rw [hsh2]
      simp

theorem charLine_neutral (c : Char) :
    matchLangTags (⟨[c]⟩ : String) = none ∧ matchNoSuffix (⟨[c]⟩ : String) = none ∧
      matchLangSwitch (⟨[c]⟩ : String) = none ∧ isFenceLine (⟨[c]⟩ : String) = false := by
  have hdata : (⟨[c]⟩ : String).data = [c] := rfl
  have hfence : isFenceLine (⟨[c]⟩ : String) = false := by
    unfold isFenceLine
    rw [hdata, trimChars_single c]
    have h3 : "```".toList = ['`', '`', '`'] := by decide
    by_cases hw : wsChar c = true
    · simp [hw, h3, List.isPrefixOf]
    · have hw2 : wsChar c = false := by
        cases h2 : wsChar c
        · rfl
        · exact absurd h2 hw
      simp [hw2, h3, List.isPrefixOf]
  rcases stripWrapChars_single c with hs | hs
  · refine ⟨?_, ?_, ?_, hfence⟩
    · unfold matchLangTags
      rw [hdata, hs]
      rfl
    · unfold matchNoSuffix
      rw [hdata, hs]
      rfl
    · unfold matchLangSwitch
      rw [hdata, hs]
      rfl
  · refine ⟨?_, ?_, ?_, hfence⟩
    · unfold matchLangTags payloadAfterKey
      rw [hdata, hs]
      have : ("lang_tags:".toList.isPrefixOf ([] : List Char)) = false := by decide
      simp [this]
    · unfold matchNoSuffix payloadAfterKey
      rw [hdata, hs]
      have : ("no_suffix:".toList.isPrefixOf ([] : List Char)) = false := by decide
      simp [this]
    · unfold matchLangSwitch payloadSwitch
      rw [hdata, hs]
      have : ("[".toList.isPrefixOf ([] : List Char)) = false := by decide
      simp [this]

/-- The fence-parity after consuming a list of lines. -/
def flagEnd (st : Bool) : List String → Bool
  | [] => st
  | l :: ls => flagEnd (if isFenceLine l then !st else st) ls

theorem flagLoop_append (A : List String) :
    ∀ (B : List String) (st : Bool),
      flagLoop st (A ++ B) = flagLoop st A ++ flagLoop (flagEnd st A) B := by
  induction A with
  | nil => intro B st; rfl
  | cons l ls ih =>
    intro B st
    by_cases hf : isFenceLine l = true
    · simp [flagLoop, flagEnd, hf, ih]
    · simp [flagLoop, flagEnd, hf, ih]

theorem flagLoop_length (st : Bool) : ∀ A : List String, (flagLoop st A).length = A.length := by
  intro A
  induction A generalizing st with
  | nil => rfl
  | cons l ls ih =>
    by_cases hf : isFenceLine l = true
    · simp [flagLoop, hf, ih]
    · simp [flagLoop, hf, ih]

theorem flagLoop_neutral (st : Bool) :
    ∀ C : List String, (∀ l ∈ C, isFenceLine l = false) →
      flagLoop st C = C.map (fun _ => st) ∧ flagEnd st C = st := by
  intro C
  induction C with
  | nil => intro _; exact ⟨rfl, rfl⟩
  | cons l ls ih =>
    intro h
    have hl : isFenceLine l = false := h l (List.mem_cons_self l ls)
    have hrest := ih (fun x hx => h x (List.mem_cons_of_mem l hx))
    constructor
    · simp [flagLoop, hl, hrest.1]
    · simp [flagEnd, hl, hrest.2]

theorem extractLoop_append : ∀ (X Y : List (String × Bool)) (n : Nat) (cfg : Config),
    extractLoop (X ++ Y) n cfg =
      match extractLoop X n cfg with
      | .error e => .error e
      | .ok c => extractLoop Y (n + X.length) c
  | [], Y, n, cfg => by simp [extractLoop]
  | (l, m) :: X, Y, n, cfg => by
    have harith : ∀ k : Nat, n + 1 + k = n + (k + 1) := by omega
    cases m with
    | true =>
      show extractLoop (X ++ Y) (n + 1) cfg = _
      rw [extractLoop_append X Y (n + 1) cfg]
      simp only [extractLoop, if_true, List.length_cons, harith X.length]
    | false =>
      simp only [List.cons_append, extractLoop, Bool.false_eq_true, if_false]
      by_cases hcom : isCommentLine l = true
      · simp only [hcom, if_true]
        cases h1 : _try_update_lang_tags l (n + 1) cfg with
        | error e => rfl
        | ok cfg1 =>
          simp only
          cases h2 : _try_update_no_suffix l (n + 1) cfg1 with
          | error e => simp only [h2]
          | ok cfg2 =>
            simp only [h2, List.append_eq]
            rw [extractLoop_append X Y (n + 1) cfg2]
            simp only [List.length_cons, harith X.length]
      · simp only [hcom, Bool.false_eq_true, if_false, List.append_eq]
        rw [extractLoop_append X Y (n + 1) cfg]
        simp only [List.length_cons, harith X.length]

theorem try_lang_idx (l : String) (n n2 : Nat) (cfg : Config) :
    (∃ e1 e2, _try_update_lang_tags l n cfg = .error e1 ∧
      _try_update_lang_tags l n2 cfg = .error e2)
    ∨ (∃ c, _try_update_lang_tags l n cfg = .ok c ∧ _try_update_lang_tags l n2 cfg = .ok c) := by
  unfold _try_update_lang_tags
  cases matchLangTags l with
  | none => exact Or.inr ⟨cfg, rfl, rfl⟩
  | some p =>
    by_cases ht : pyTruthyStrList cfg.lang_tags = true
    · simp only [ht, if_true]
      exact Or.inl ⟨_, _, rfl, rfl⟩
    · have ht2 : pyTruthyStrList cfg.lang_tags = false := by
        cases h2 : pyTruthyStrList cfg.lang_tags
        · rfl
        · exact absurd h2 ht
      simp only [ht2, Bool.false_eq_true, if_false]
      exact Or.inr ⟨_, rfl, rfl⟩

theorem try_suf_idx (l : String) (n n2 : Nat) (cfg : Config) :
    (∃ e1 e2, _try_update_no_suffix l n cfg = .error e1 ∧
      _try_update_no_suffix l n2 cfg = .error e2)
    ∨ (∃ c, _try_update_no_suffix l n cfg = .ok c ∧ _try_update_no_suffix l n2 cfg = .ok c) := by
  unfold _try_update_no_suffix
  cases matchNoSuffix l with
  | none => exact Or.inr ⟨cfg, rfl, rfl⟩
  | some t =>
    by_cases ht : pyTruthyOptStr cfg.no_suffix = true
    · simp only [ht, if_true]
      exact Or.inl ⟨_, _, rfl, rfl⟩
    · have ht2 : pyTruthyOptStr cfg.no_suffix = false := by
        cases h2 : pyTruthyOptStr cfg.no_suffix
        · rfl
        · exact absurd h2 ht
      simp only [ht2, Bool.false_eq_true, if_false]
      exact Or.inr ⟨_, rfl, rfl⟩

theorem extractLoop_toOption_idx : ∀ (Z : List (String × Bool)) (n n2 : Nat) (cfg : Config),
    (extractLoop Z n cfg).toOption = (extractLoop Z n2 cfg).toOption
  | [], _, _, _ => rfl
  | (l, m) :: Z, n, n2, cfg => by
    cases m with
    | true => exact extractLoop_toOption_idx Z (n + 1) (n2 + 1) cfg
    | false =>
      simp only [extractLoop, Bool.false_eq_true, if_false]
      by_cases hcom : isCommentLine l = true
      · simp only [hcom, if_true]
        rcases try_lang_idx l (n + 1) (n2 + 1) cfg with ⟨e1, e2, h1, h2⟩ | ⟨c1, h1, h2⟩
        · simp only [h1, h2]
          rfl
        · simp only [h1, h2]
          rcases try_suf_idx l (n + 1) (n2 + 1) c1 with ⟨f1, f2, g1, g2⟩ | ⟨c2, g1, g2⟩
          · simp only [g1, g2]
            rfl
          · simp only [g1, g2]
            exact extractLoop_toOption_idx Z (n + 1) (n2 + 1) c2
      · simp only [hcom, if_false]
        exact extractLoop_toOption_idx Z (n + 1) (n2 + 1) cfg

theorem extractLoop_neutral : ∀ (Z : List (String × Bool)) (n : Nat) (cfg : Config),
    (∀ p ∈ Z, matchLangTags p.1 = none ∧ matchNoSuffix p.1 = none) →
    extractLoop Z n cfg = .ok cfg
  | [], _, _, _ => rfl
  | (l, m) :: Z, n, cfg, h => by
    have hl := h (l, m) (List.mem_cons_self (l, m) Z)
    have hrest : ∀ p ∈ Z, matchLangTags p.1 = none ∧ matchNoSuffix p.1 = none :=
      fun p hp => h p (List.mem_cons_of_mem (l, m) hp)
    cases m with
    | true => exact extractLoop_neutral Z (n + 1) cfg hrest
    | false =>
      simp only [extractLoop, Bool.false_eq_true, if_false]
      by_cases hcom : isCommentLine l = true
      · simp only [hcom, if_true, _try_update_lang_tags, _try_update_no_suffix, hl.1, hl.2]
        exact extractLoop_neutral Z (n + 1) cfg hrest
      · simp only [hcom, if_false]
        exact extractLoop_neutral Z (n + 1) cfg hrest

theorem flagEnd_append : ∀ (A B : List String) (st : Bool),
    flagEnd st (A ++ B) = flagEnd (flagEnd st A) B
  | [], _, _ => rfl
  | l :: ls, B, st => by
    simp only [List.cons_append, flagEnd]
    exact flagEnd_append ls B _

theorem extract_md_insert_neutral (A C B : List String)
    (hC : ∀ l ∈ C, matchLangTags l = none ∧ matchNoSuffix l = none ∧ isFenceLine l = false) :
    (extract_config_from_md (A ++ C ++ B)).toOption
      = (extract_config_from_md (A ++ B)).toOption := by
  have hCf : ∀ l ∈ C, isFenceLine l = false := fun l hl => (hC l hl).2.2
  have hneut := flagLoop_neutral (flagEnd false A) C hCf
  unfold extract_config_from_md flag_code_block_lines
  have hm1 : flagLoop false (A ++ C ++ B) =
      flagLoop false A ++ flagLoop (flagEnd false A) C ++ flagLoop (flagEnd false A) B := by
    rw [flagLoop_append (A ++ C) B, flagLoop_append A C, flagEnd_append A C, hneut.2]
  have hm2 : flagLoop false (A ++ B) = flagLoop false A ++ flagLoop (flagEnd false A) B :=
    flagLoop_append A B false
  rw [hm1, hm2]
  have hlen1 : A.length = (flagLoop false A).length := (flagLoop_length false A).symm
  have hlen2 : (A ++ C).length
      = (flagLoop false A ++ flagLoop (flagEnd false A) C).length := by
    simp [flagLoop_length]
  have hzip1 : (A ++ C ++ B).zip
        (flagLoop false A ++ flagLoop (flagEnd false A) C ++ flagLoop (flagEnd false A) B)
      = A.zip (flagLoop false A) ++ C.zip (flagLoop (flagEnd false A) C)
          ++ B.zip (flagLoop (flagEnd false A) B) := by
    rw [List.zip_append hlen2, List.zip_append hlen1]
  have hzip2 : (A ++ B).zip (flagLoop false A ++ flagLoop (flagEnd false A) B)
      = A.zip (flagLoop false A) ++ B.zip (flagLoop (flagEnd false A) B) :=
    List.zip_append hlen1
  rw [hzip1, hzip2]
  rw [extractLoop_append (A.zip (flagLoop false A) ++ C.zip (flagLoop (flagEnd false A) C))
    (B.zip (flagLoop (flagEnd false A) B)) 0 {}]
  rw [extractLoop_append (A.zip (flagLoop false A)) (C.zip (flagLoop (flagEnd false A) C)) 0 {}]
  rw [extractLoop_append (A.zip (flagLoop false A)) (B.zip (flagLoop (flagEnd false A) B)) 0 {}]
  cases hA : extractLoop (A.zip (flagLoop false A)) 0 {} with
  | error e => rfl
  | ok c =>
    simp only
    rw [extractLoop_neutral (C.zip (flagLoop (flagEnd false A) C)) _ c ?_]
    · simp only
      exact extractLoop_toOption_idx (B.zip (flagLoop (flagEnd false A) B)) _ _ c
    · intro p hp
      have hmem := (List.of_mem_zip hp).1
      exact ⟨(hC p.1 hmem).1, (hC p.1 hmem).2.1⟩

/-- C10. `extract_config_from_jupyter` recognizes directives only from
list-of-lines sources: when a markdown cell's `source` is a single
string, the flattening in `src/mmg/config.py` line 80 iterates it
character by character; no one-character line matches any directive, and
the cell contributes nothing to the extracted config (the result, up to
the line numbers inside duplicate-declaration messages, is that of the
notebook without the cell). -/
theorem claim_C10 (s : String) (pre post : List Cell) :
    (∀ l ∈ cellIter (.plain s),
      matchLangTags l = none ∧ matchNoSuffix l = none ∧ matchLangSwitch l = none)
    ∧ (extract_config_from_jupyter ⟨pre ++ ⟨"markdown", .plain s⟩ :: post⟩).toOption
        = (extract_config_from_jupyter ⟨pre ++ post⟩).toOption := by
  have hchar : ∀ l ∈ cellIter (.plain s),
      matchLangTags l = none ∧ matchNoSuffix l = none ∧ matchLangSwitch l = none ∧
        isFenceLine l = false := by
    intro l hl
    simp only [cellIter, List.mem_map] at hl
    obtain ⟨c, _, hceq⟩ := hl
    rw [← hceq]
    exact charLine_neutral c
  constructor
  · intro l hl
    exact ⟨(hchar l hl).1, (hchar l hl).2.1, (hchar l hl).2.2.1⟩
  · unfold extract_config_from_jupyter
    have hflat : flattenMdCells ⟨pre ++ (⟨"markdown", .plain s⟩ : Cell) :: post⟩
        = flattenMdCells ⟨pre⟩ ++ cellIter (.plain s) ++ flattenMdCells ⟨post⟩ := by
      unfold flattenMdCells
      simp [List.filter_append, List.filter_cons, List.map_append, List.flatten_append,
        List.append_assoc]
    have hflat2 : flattenMdCells ⟨pre ++ post⟩
        = flattenMdCells ⟨pre⟩ ++ flattenMdCells ⟨post⟩ := by
      unfold flattenMdCells
      simp [List.filter_append, List.map_append, List.flatten_append]
    rw [hflat, hflat2]
    exact extract_md_insert_neutral (flattenMdCells ⟨pre⟩) (cellIter (.plain s))
      (flattenMdCells ⟨post⟩)
      (fun l hl => ⟨(hchar l hl).1, (hchar l hl).2.1, (hchar l hl).2.2.2⟩)

/-- Witness for C10 at a concrete string-source cell that spells a
directive. -/
theorem claim_C10_witness :
    (matchLangTags "#" = none ∧ matchNoSuffix "#" = none ∧ matchLangSwitch "#" = none) ∧
    (extract_config_from_jupyter
        ⟨[⟨"markdown", .plain "# lang_tags: en"⟩]⟩).toOption
      = (extract_config_from_jupyter (⟨[]⟩ : Notebook)).toOption :=
  ⟨(claim_C10 "# lang_tags: en" [] []).1 "#" (by decide),
    (claim_C10 "# lang_tags: en" [] []).2⟩
